import Mathlib

/-!
Verification of the HK MPF cut-plan engine (repository `ravenorb/mts`).

This file gives a shallow embedding, in Lean 4, of the core text-processing
and geometry routines of the repository:

* `parse_hk_mpf`, `_extract_call_floats`, `_arc_points`
  (from `src/mts-hk-cutplan/app/main.py`, lines 50-214; the variant in
  `src/app/main.py` lines 3691-3794 is the same code without the
  placement-replication table),
* `export_reordered_mpf` (both files, identical logic),
* `generate_skeleton_mpf` (both files, identical logic),
* `compute_skeleton` (both files, identical logic; the polygon booleans are
  delegated to the external Shapely library and are modelled here for
  axis-aligned rectangle parts, which is the class of inputs the claims
  exercise).

Machine floats are modelled as exact numbers: `ℚ` wherever the source only
moves values around and compares lengths, `ℝ` where trigonometry happens
(`_arc_points`).  Python's fallible primitives (list indexing) are modelled in
an `Except` monad so that "the parser never raises" is a real theorem about
the guard structure of the code, not an artefact of Lean totality.  Python's
`text.splitlines()` is abstracted by letting the functions consume the list
of lines; `"\n".join(...)` is `String.intercalate "\n"`.
-/

namespace Mts

/-! ### Python string primitives -/

/-- Whitespace test used by Python's `str.strip` (ASCII fragment). -/
def pySpace (c : Char) : Bool :=
  c = ' ' ∨ c = '\t' ∨ c = '\n' ∨ c = '\r' ∨ c = '\x0b' ∨ c = '\x0c'

/-- Python `str.strip()` on a character list. -/
def pyStrip (s : List Char) : List Char :=
  ((s.dropWhile pySpace).reverse.dropWhile pySpace).reverse

/-- Python `str.upper()` (ASCII fragment, which is all the dialect uses). -/
def upperChars (s : List Char) : List Char :=
  s.map Char.toUpper

/-- Python substring containment `needle in hay`. -/
def containsSub (needle hay : List Char) : Bool :=
  hay.tails.any (fun t => needle.isPrefixOf t)

/-- Index of the first occurrence of `needle` in `hay` (`none` if absent). -/
def firstSubIdx (needle hay : List Char) : Option Nat :=
  match hay with
  | [] => if needle = [] then some 0 else none
  | _ :: t =>
    if needle.isPrefixOf hay then some 0
    else (firstSubIdx needle t).map (· + 1)

/-- Decimal digit test. -/
def isDigit (c : Char) : Bool := '0' ≤ c ∧ c ≤ '9'

/-- Word-character test of the regex `\b` boundary (`[A-Za-z0-9_]`). -/
def isWordChar (c : Char) : Bool :=
  ('A' ≤ c ∧ c ≤ 'Z') ∨ ('a' ≤ c ∧ c ≤ 'z') ∨ isDigit c ∨ c = '_'

/-- Numeric value of a digit string. -/
def digitsVal (ds : List Char) : Nat :=
  ds.foldl (fun a c => 10 * a + (c.toNat - '0'.toNat)) 0

/-- Rational value of a sign, integer digits and fraction digits, the exact
value Python's `float()` receives for a token of the regex
`NUM = [-+]?(?:\d+\.?\d*|\.\d+)`. -/
def numVal (neg : Bool) (dInt dFrac : List Char) : ℚ :=
  (if neg then -1 else 1) *
    ((digitsVal dInt : ℚ) + (digitsVal dFrac : ℚ) / 10 ^ dFrac.length)

/-- Greedy match of the float regex `NUM` at the head of `cs`; returns the
value and the number of characters consumed (the regex engine's leftmost
greedy match used by `RE_FLOATS.findall`). -/
def matchNum (cs : List Char) : Option (ℚ × Nat) :=
  let signLen : Nat := match cs with
    | '-' :: _ => 1
    | '+' :: _ => 1
    | _ => 0
  let neg : Bool := match cs with
    | '-' :: _ => true
    | _ => false
  let cs1 := cs.drop signLen
  let d1 := cs1.takeWhile isDigit
  if d1 ≠ [] then
    match cs1.drop d1.length with
    | '.' :: t =>
      let d2 := t.takeWhile isDigit
      some (numVal neg d1 d2, signLen + d1.length + 1 + d2.length)
    | _ => some (numVal neg d1 [], signLen + d1.length)
  else
    match cs1 with
    | '.' :: t =>
      let d2 := t.takeWhile isDigit
      if d2 ≠ [] then some (numVal neg [] d2, signLen + 1 + d2.length)
      else none
    | _ => none

/-- Scanner of `RE_FLOATS.findall`: take the greedy match at the current
position, else advance one character.  The `fuel` argument only bounds the
recursion; every step consumes at least one character, so `cs.length` steps
always suffice (see `lexFloatsAux_fuel`). -/
def lexFloatsAux : Nat → List Char → List ℚ
  | 0, _ => []
  | _ + 1, [] => []
  | fuel + 1, c :: t =>
    match matchNum (c :: t) with
    | some (q, n) => q :: lexFloatsAux fuel ((c :: t).drop n)
    | none => lexFloatsAux fuel t

/-- All float tokens in a character list, in order: the model of
`RE_FLOATS.findall`. -/
def lexFloats (cs : List Char) : List ℚ :=
  lexFloatsAux cs.length cs

/-- Full-string match of the float regex `NUM` (used under the `\b` word
boundaries of `RE_X`/`RE_Y`/`RE_I`/`RE_J`): the greedy prefix match must
consume the whole candidate. -/
def numFullMatch (cs : List Char) : Option ℚ :=
  match matchNum cs with
  | some (q, n) => if n = cs.length then some q else none
  | none => none

/-- Word-boundary test after a match: `last` is the last matched character,
`rest` the remainder of the line. -/
def boundaryAfter (last : Char) (rest : List Char) : Bool :=
  match rest with
  | [] => isWordChar last
  | c :: _ => xor (isWordChar last) (isWordChar c)

/-- Attempt the longest, then successively shorter, full `NUM` matches at the
start of `after`, accepting the first one whose right word boundary holds;
this mirrors the regex engine's greedy-with-backtracking search for
`\bX(NUM)\b` once the position of `X` is fixed. -/
def tryLens (after : List Char) : Nat → Option ℚ
  | 0 => none
  | k + 1 =>
    let cand := after.take (k + 1)
    match numFullMatch cand with
    | some q =>
      match cand.getLast? with
      | some lastC =>
        if boundaryAfter lastC (after.drop (k + 1)) then some q
        else tryLens after k
      | none => tryLens after k
    | none => tryLens after k

/-- Word-boundary test before the key letter: holds at line start or after a
non-word character. -/
def nonWordBefore : Option Char → Bool
  | none => true
  | some p => ¬ isWordChar p

/-- Model of `re.search(r"\bK(NUM)\b", u)` for a single key letter `K`
(`X`, `Y`, `I` or `J`): leftmost occurrence of the letter preceded by a word
boundary and followed by a boundary-delimited number. -/
def searchNum (key : Char) : Option Char → List Char → Option ℚ
  | _, [] => none
  | prev, c :: rest =>
    if c = key ∧ nonWordBefore prev then
      match tryLens rest rest.length with
      | some q => some q
      | none => searchNum key (some c) rest
    else searchNum key (some c) rest

/-- Model of `RE_X.search(u)` style lookups on a whole line. -/
def searchKey (key : Char) (u : List Char) : Option ℚ :=
  searchNum key none u

/-- Model of `_extract_call_floats(line, keyword)`
(`src/mts-hk-cutplan/app/main.py:57`, `src/app/main.py:3699`): the regex
`keyword\(([^)]*)\)` takes the text between the first `keyword(` and the next
`)`, and `RE_FLOATS.findall` lexes every float token in it.  The parser always
passes the uppercased line and an uppercase keyword, so `re.I` is immaterial. -/
def extractCallFloats (u : List Char) (keyword : List Char) : List ℚ :=
  match firstSubIdx (keyword ++ ['(']) u with
  | none => []
  | some idx =>
    let after := u.drop (idx + keyword.length + 1)
    let inner := after.takeWhile (· ≠ ')')
    if inner.length = after.length then []  -- no closing parenthesis: no match
    else lexFloats inner

/-- Python `int()` truncation toward zero on an exact rational. -/
def pyInt (q : ℚ) : ℤ :=
  if 0 ≤ q then ⌊q⌋ else -⌊-q⌋

/-- Leading `N<digits>` line number, the model of
`re.match(r"N(\d+)", u)` (`src/mts-hk-cutplan/app/main.py:108`). -/
def lineNoOf (u : List Char) : Option ℤ :=
  match u with
  | 'N' :: t =>
    let ds := t.takeWhile isDigit
    if ds = [] then none else some (digitsVal ds : ℤ)
  | _ => none

/-! ### ProgramEmitter: block reordering

Model of `export_reordered_mpf(original_text, order)`
(`src/mts-hk-cutplan/app/main.py:371-410`, `src/app/main.py:3880-3910`).
The function receives the result of `original_text.splitlines()` as a list of
lines.  The two historical variants differ only in the exception type raised
on a length mismatch (`ValueError` vs `HTTPException(400)`); both propagate
to the caller before any artifact is written, which the model renders as
`Except.error`.  Python's `blocks[cid - 1]` indexing, which accepts negative
end-relative indices and raises `IndexError` out of range, is `pyGet`. -/

/-- Normalisation `line.strip().upper()` applied to every line before the
substring tests. -/
def lineU (s : String) : List Char :=
  upperChars (pyStrip s.toList)

/-- Python list indexing: non-negative indices from the front, negative
indices from the back, `none` (an `IndexError`) out of range. -/
def pyGet (l : List α) (i : ℤ) : Option α :=
  if 0 ≤ i then l[i.toNat]?
  else if 0 ≤ i + l.length then l[(i + l.length).toNat]?
  else none

/-- Accumulator of the line-splitting loop of `export_reordered_mpf`. -/
structure SplitAcc where
  blocks : List (List String)
  pre : List String
  post : List String
  inBlock : Bool
  cur : List String
  seenAny : Bool
  deriving DecidableEq, Repr

/-- Initial accumulator. -/
def splitInit : SplitAcc := ⟨[], [], [], false, [], false⟩

/-- One iteration of the splitting loop: an `HKSTR(` line (re)starts a block,
lines inside a block accumulate until one containing `HKSTO` closes it, and
other lines go to the preamble before the first `HKSTR(` and to the postamble
after it. -/
def splitStep (a : SplitAcc) (line : String) : SplitAcc :=
  let u := lineU line
  if containsSub "HKSTR(".toList u then
    { a with seenAny := true, inBlock := true, cur := [line] }
  else if a.inBlock then
    let cur' := a.cur ++ [line]
    if containsSub "HKSTO".toList u then
      { a with blocks := a.blocks ++ [cur'], inBlock := false, cur := [] }
    else { a with cur := cur' }
  else if ¬ a.seenAny then { a with pre := a.pre ++ [line] }
  else { a with post := a.post ++ [line] }

/-- The complete split of the original lines. -/
def splitBlocks (lines : List String) : SplitAcc :=
  lines.foldl splitStep splitInit

/-- A line that opens a contour block. -/
def hasStrLine (l : String) : Bool :=
  containsSub "HKSTR(".toList (lineU l)

/-- A line that closes a contour block. -/
def hasStoLine (l : String) : Bool :=
  containsSub "HKSTO".toList (lineU l)

/-- A well-formed contour block as the splitting loop reconstructs it: an
`HKSTR(` head, body lines free of `HKSTR(` and `HKSTO`, and a final line
carrying `HKSTO` (and no `HKSTR(`). -/
def WellBlock (b : List String) : Prop :=
  ∃ hd mid lst, b = hd :: (mid ++ [lst]) ∧ hasStrLine hd = true ∧
    (∀ l ∈ mid, hasStrLine l = false ∧ hasStoLine l = false) ∧
    hasStrLine lst = false ∧ hasStoLine lst = true

/-- Value selected by Python's `blocks[e - 1]` when it does not raise. -/
def pySelect (blocks : List (List String)) (e : ℤ) : List String :=
  (pyGet blocks (e - 1)).getD []

/-- Failure modes of the reorder transform: the explicit length-mismatch
`ValueError`/`HTTPException`, or the `IndexError` escaping from
`blocks[cid - 1]`. -/
inductive ReorderErr where
  | lengthMismatch (orderLen blocksLen : Nat)
  | indexError
  deriving DecidableEq, Repr

/-- Python `blocks[cid - 1]` inside the reordering comprehension: an
out-of-range index is the escaping `IndexError`. -/
def pickBlock (blocks : List (List String)) (cid : ℤ) :
    Except ReorderErr (List String) :=
  match pyGet blocks (cid - 1) with
  | some b => Except.ok b
  | none => Except.error ReorderErr.indexError

/-- Model of `export_reordered_mpf` on the split lines, producing the output
lines; `"\n".join` is applied by `exportReorderedText`.  The length check
precedes the comprehension `[blocks[cid - 1] for cid in order]`, exactly as
in the source. -/
def exportReorderedMpf (lines : List String) (order : List ℤ) :
    Except ReorderErr (List String) :=
  let a := splitBlocks lines
  if order.length ≠ a.blocks.length then
    Except.error (.lengthMismatch order.length a.blocks.length)
  else
    match order.mapM (pickBlock a.blocks) with
    | Except.ok newBlocks => Except.ok (a.pre ++ newBlocks.flatten ++ a.post)
    | Except.error e => Except.error e

/-- The joined output text, as the Python function returns it. -/
def exportReorderedText (lines : List String) (order : List ℤ) :
    Except ReorderErr String :=
  (exportReorderedMpf lines order).map (String.intercalate "\n")

/-! ### ProgramEmitter: skeleton appension

Model of `generate_skeleton_mpf(original_text, model_with_skeleton)`
(`src/mts-hk-cutplan/app/main.py:327-366`, `src/app/main.py:3913-3931`),
again at the level of the split lines.  The skeleton cuts are consumed as a
list of chords. -/

/-- A skeleton cut: straight chord from `a` to `b`. -/
structure SkelCut where
  id : Nat
  a : ℚ × ℚ
  b : ℚ × ℚ
  deriving DecidableEq, Repr

/-- Insertion-point test: a line containing `HKEND` (uppercased, unstripped)
or whose stripped uppercase starts with `M30`. -/
def isEndLine (s : String) : Bool :=
  containsSub "HKEND".toList (upperChars s.toList) ||
    "M30".toList.isPrefixOf (lineU s)

/-- Index of the first end-marker line; `List.findIdx` returns the length of
the list when no line matches, exactly like the Python loop's default. -/
def insertAt (lines : List String) : Nat :=
  lines.findIdx isEndLine

/-- Fixed-point rendering of a rational with four decimals, modelling the
`f"{v:.4f}"` formatting of the synthesized coordinates (ties to even). -/
def format4 (q : ℚ) : String :=
  let v := q * 10000
  let f : ℤ := ⌊v⌋
  let r := v - f
  let n : ℤ :=
    if r > 1/2 then f + 1
    else if r < 1/2 then f
    else if f % 2 = 0 then f else f + 1
  let sgn := if n < 0 then "-" else ""
  let m := n.natAbs
  let ip := m / 10000
  let fp := m % 10000
  let fpStr := Nat.toDigits 10 fp
  let pad := String.mk (List.replicate (4 - fpStr.length) '0')
  sgn ++ toString ip ++ "." ++ pad ++ String.mk fpStr

/-- The seven synthesized lines of one skeleton-cut contour block. -/
def cutBlock (seq : Nat) (c : SkelCut) : List String :=
  ["N" ++ toString seq ++ " HKSTR(0,1," ++ format4 c.a.1 ++ "," ++
     format4 c.a.2 ++ ",0,0,0,0)",
   "HKPIE(0,0,0)",
   "HKLEA(0,0,0)",
   "HKCUT(0,0,0)",
   "G1 X" ++ format4 c.a.1 ++ " Y" ++ format4 c.a.2,
   "G1 X" ++ format4 c.b.1 ++ " Y" ++ format4 c.b.2,
   "HKSTO(0,0,0)"]

/-- The synthesized cut blocks followed by the `HKPED` terminator, with the
`N` sequence number advancing by 10 per cut as in the source loop. -/
def synthBody (seq : Nat) : List SkelCut → List String
  | [] => ["N" ++ toString seq ++ " HKPED(0,0,0)"]
  | c :: rest => cutBlock seq c ++ synthBody (seq + 10) rest

/-- The full synthesized insertion: sentinel `HKOST` header (program id
990001, tech 99, zero offsets), one block per cut, `HKPED`. -/
def synthLines (cuts : List SkelCut) : List String :=
  "N900000 HKOST(0.0,0.0,0.0,990001,99,0,0,0)" :: synthBody 900010 cuts

/-- Model of `generate_skeleton_mpf` on the split lines: keep everything
before the insertion index, emit the synthetic part, re-append the original
tail. -/
def generateSkeletonMpf (lines : List String) (cuts : List SkelCut) :
    List String :=
  lines.take (insertAt lines) ++ synthLines cuts ++ lines.drop (insertAt lines)

/-! ### Arc tessellation

Model of `_arc_points(start, end, i, j, cw, step_deg=6.0)`
(`src/mts-hk-cutplan/app/main.py:63-86`, `src/app/main.py:3706-3721`) over
exact reals.  `math.atan2` is `Complex.arg`; the `while` loops that add or
subtract `2*pi` until the end angle sits on the required side of the start
angle are rendered in closed form (`normWinding`), and certified below to be
the loops' unique fixpoints.  `int(x)` on the non-negative `abs(total)` ratio
is `Nat.floor`; `math.radians(6.0)` is `π / 30`. -/

/-- Python `math.atan2(y, x)` as the complex argument of `x + y·i`. -/
noncomputable def atan2 (y x : ℝ) : ℝ := Complex.arg ⟨x, y⟩

/-- Arc centre `c = start + (i, j)`. -/
def arcCenter (start : ℝ × ℝ) (i j : ℝ) : ℝ × ℝ :=
  (start.1 + i, start.2 + j)

/-- Start angle `a0 = atan2(sy - cy, sx - cx)`. -/
noncomputable def arcA0 (start : ℝ × ℝ) (i j : ℝ) : ℝ :=
  atan2 (start.2 - (arcCenter start i j).2) (start.1 - (arcCenter start i j).1)

/-- Raw end angle `a1 = atan2(ey - cy, ex - cx)` before winding
normalisation. -/
noncomputable def arcA1raw (start e : ℝ × ℝ) (i j : ℝ) : ℝ :=
  atan2 (e.2 - (arcCenter start i j).2) (e.1 - (arcCenter start i j).1)

/-- Closed form of the two normalisation loops: for `cw` subtract `2π` from
`a1` as long as `a1 > a0`, otherwise add `2π` as long as `a1 < a0`.  The
number of iterations is `max 0 ⌈±(a1 - a0) / (2π)⌉`. -/
noncomputable def normWinding (cw : Bool) (a0 a1 : ℝ) : ℝ :=
  if cw then a1 - 2 * Real.pi * (max 0 ⌈(a1 - a0) / (2 * Real.pi)⌉ : ℤ)
  else a1 + 2 * Real.pi * (max 0 ⌈(a0 - a1) / (2 * Real.pi)⌉ : ℤ)

/-- Normalised end angle of the arc. -/
noncomputable def arcA1 (start e : ℝ × ℝ) (i j : ℝ) (cw : Bool) : ℝ :=
  normWinding cw (arcA0 start i j) (arcA1raw start e i j)

/-- Signed angular sweep `total = a1 - a0` after normalisation. -/
noncomputable def arcTotal (start e : ℝ × ℝ) (i j : ℝ) (cw : Bool) : ℝ :=
  arcA1 start e i j cw - arcA0 start i j

/-- Step count `n = max(8, int(abs(total) / math.radians(6.0)) + 1)`. -/
noncomputable def arcN (start e : ℝ × ℝ) (i j : ℝ) (cw : Bool) : ℕ :=
  max 8 (⌊|arcTotal start e i j cw| / (Real.pi / 30)⌋₊ + 1)

/-- Sampling radius `r = math.hypot(sx - cx, sy - cy)`. -/
noncomputable def arcR (start : ℝ × ℝ) (i j : ℝ) : ℝ :=
  Real.sqrt ((start.1 - (arcCenter start i j).1) ^ 2 +
             (start.2 - (arcCenter start i j).2) ^ 2)

/-- Model of `_arc_points`: `n + 1` points sampled at equal angular
increments `a0 + total * (k / n)` on the circle of radius `r` about the
centre. -/
noncomputable def arcPoints (start e : ℝ × ℝ) (i j : ℝ) (cw : Bool) :
    List (ℝ × ℝ) :=
  let c := arcCenter start i j
  let a0 := arcA0 start i j
  let total := arcTotal start e i j cw
  let n := arcN start e i j cw
  let r := arcR start i j
  (List.range (n + 1)).map (fun k : ℕ =>
    (c.1 + r * Real.cos (a0 + total * ((k : ℝ) / n)),
     c.2 + r * Real.sin (a0 + total * ((k : ℝ) / n))))


/-- The step count exactly as the specification words it:
`n = max(8, ceil(|a1 - a0| / 6 degrees))`.  Compare `arcN`, which models the
code's `max(8, int(abs(total) / math.radians(6.0)) + 1)`; the two differ
when the sweep is an exact positive multiple of 6 degrees. -/
noncomputable def specArcN (start e : ℝ × ℝ) (i j : ℝ) (cw : Bool) : ℕ :=
  max 8 ⌈|arcTotal start e i j cw| / (Real.pi / 30)⌉₊

/-! ### MpfParser

Model of `parse_hk_mpf(text)` (`src/mts-hk-cutplan/app/main.py:88-214`).
Python's heap of mutable dicts is rendered with indices: `parts` is the
growing list of parts, `current_part` an index into it, `current_contours` a
list of (part index, contour index, placement offset) triples, and
`part_starts` an association list from program id to the indices of the parts
registered under it.  Parts are only ever appended, so indices are stable,
exactly like the Python object references they stand for.  Every Python list
subscript `vals[k]` is the fallible `pyIdx`, so the parser lives in
`Except PyErr`; the source removes the internal `"offset"` key from each part
dict just before returning, which the model renders by simply keeping the
field (it carries the same values). -/

/-- Contour polarity: first `HKSTR` argument `0` is an outer boundary,
anything else a hole. -/
inductive CtKind where
  | outer
  | hole
  deriving DecidableEq, Repr

/-- A recorded segment: a straight `G1` move, or the tessellated polyline of
a `G2`/`G3` arc. -/
inductive Seg where
  | line (a b : ℚ × ℚ)
  | polyline (pts : List (ℝ × ℝ))

/-- One contour, as built by the `HKSTR` handler; `id` is `0` during parsing
and assigned sequentially after it. -/
structure ContourM where
  kind : CtKind
  hkstr : List ℚ
  segments : List Seg
  id : Nat := 0

/-- One part, as built by the `HKOST` handler (or anonymously by a stray
`HKSTR`). -/
structure PartM where
  programId : Option ℤ := none
  tech : Option ℤ := none
  offset : ℚ × ℚ := (0, 0)
  contours : List ContourM := []

/-- Default part value used with `List.getD` in lemma statements. -/
def dummyPart : PartM := {}

/-- A reference to a currently-open contour: which part, which contour in it,
and the placement offset to add to recorded coordinates. -/
structure ActiveRef where
  partIdx : Nat
  contourIdx : Nat
  offset : ℚ × ℚ
  deriving DecidableEq, Repr

/-- The cross-line parser state. -/
structure ParseState where
  x : ℚ := 0
  y : ℚ := 0
  cutOn : Bool := false
  sheetW : Option ℚ := none
  sheetH : Option ℚ := none
  parts : List PartM := []
  currentPart : Option Nat := none
  currentContours : List ActiveRef := []
  partStarts : List (ℤ × List Nat) := []

/-- The only exception the modelled code can raise: an `IndexError` from a
list subscript. -/
inductive PyErr where
  | indexError
  deriving DecidableEq, Repr

/-- Python list subscript `l[i]` for a non-negative literal index. -/
def pyIdx (l : List α) (i : Nat) : Except PyErr α :=
  match l[i]? with
  | some a => Except.ok a
  | none => Except.error PyErr.indexError

/-- Lookup `part_starts.get(key)`, with a missing key giving the empty
placement list (Python's `None` is also falsy). -/
def lookupStarts (m : List (ℤ × List Nat)) (k : ℤ) : List Nat :=
  match m.find? (fun p => p.1 = k) with
  | some p => p.2
  | none => []

/-- Model of `part_starts.setdefault(program_id, []).append(current_part)`. -/
def registerStart (m : List (ℤ × List Nat)) (k : ℤ) (idx : Nat) :
    List (ℤ × List Nat) :=
  if m.any (fun p => p.1 = k) then
    m.map (fun p => if p.1 = k then (p.1, p.2 ++ [idx]) else p)
  else m ++ [(k, [idx])]

/-- Append one new contour to each placed part, returning the updated part
list together with the `current_contours` references (contour index and the
part's placement offset read before the append, as in the source loop). -/
def openContours (ps : List PartM) (c0 : ContourM) :
    List Nat → List PartM × List ActiveRef
  | [] => (ps, [])
  | i :: rest =>
    match ps[i]? with
    | some p =>
      let r := openContours (ps.set i { p with contours := p.contours ++ [c0] }) c0 rest
      (r.1, ⟨i, p.contours.length, p.offset⟩ :: r.2)
    | none =>
      -- unreachable for parser-produced states: placement indices are
      -- always indices of previously appended parts
      openContours ps c0 rest

/-- Append a segment (built from each placement's offset) to every currently
open contour, the body of the `for active in current_contours` loops of the
`G1`/`G2`/`G3` handlers. -/
def appendSegAll (ps : List PartM) (actives : List ActiveRef)
    (mk : ℚ × ℚ → Seg) : List PartM :=
  actives.foldl (fun acc a =>
    match acc[a.partIdx]? with
    | some p =>
      acc.set a.partIdx { p with contours :=
        match p.contours[a.contourIdx]? with
        | some c =>
          p.contours.set a.contourIdx
            { c with segments := c.segments ++ [mk a.offset] }
        | none => p.contours }
    | none => acc) ps

/-- Replication key of an `HKSTR` line: `part_starts.get(line_no or -1)` —
Python's `or` maps both a missing `N` prefix and the (falsy) line number `0`
to the absent key `-1`. -/
def lineKey (u : List Char) : ℤ :=
  match lineNoOf u with
  | some n => if n = 0 then -1 else n
  | none => -1

/-- Python's conditional expression `vals[k] if len(vals) >= k+1 else d`. -/
def argOr (vals : List ℚ) (k : Nat) (d : ℚ) : Except PyErr ℚ :=
  if k + 1 ≤ vals.length then pyIdx vals k else pure d

/-- Python's conditional expression
`int(vals[k]) if len(vals) >= k+1 else None`. -/
def optArgInt (vals : List ℚ) (k : Nat) : Except PyErr (Option ℤ) :=
  if k + 1 ≤ vals.length then (pyIdx vals k).map (fun v => some (pyInt v))
  else pure none

/-- Python's conditional expression `int(vals[0]) if vals else 0` (the
contour-type argument of `HKSTR`). -/
def ctypeArg (vals : List ℚ) : Except PyErr ℤ :=
  if 1 ≤ vals.length then (pyIdx vals 0).map pyInt else pure 0

/-- The `HKINI` handler: with at least 3 numeric arguments, set the sheet to
`(args[1], args[2])` (overwriting any earlier value). -/
def hkiniStep (s : ParseState) (u : List Char) : Except PyErr ParseState :=
  let vals := extractCallFloats u "HKINI".toList
  if 3 ≤ vals.length then do
    let w ← pyIdx vals 1
    let h ← pyIdx vals 2
    return { s with sheetW := some w, sheetH := some h }
  else .ok s

/-- The `HKOST` handler: append a new part, make it current, and register it
in the placement table when a numeric `program_id` (4th argument) is
present. -/
def hkostStep (s : ParseState) (u : List Char) : Except PyErr ParseState := do
  let vals := extractCallFloats u "HKOST".toList
  let pid ← optArgInt vals 3
  let tech ← optArgInt vals 4
  let ox ← argOr vals 0 0
  let oy ← argOr vals 1 0
  let idx := s.parts.length
  let newPart : PartM :=
    { programId := pid, tech := tech, offset := (ox, oy), contours := [] }
  return { s with
    parts := s.parts ++ [newPart],
    currentPart := some idx,
    partStarts := match pid with
      | some k => registerStart s.partStarts k idx
      | none => s.partStarts }

/-- The placement resolution of `HKSTR`: the state (possibly extended by an
anonymous part) and the list of placed-part indices that receive the new
contour. -/
def hkstrPlacements (s : ParseState) (u : List Char) :
    ParseState × List Nat :=
  let placements0 := lookupStarts s.partStarts (lineKey u)
  if placements0 ≠ [] then (s, placements0)
  else
    match s.currentPart with
    | some cp => (s, [cp])
    | none =>
      ({ s with
         parts := s.parts ++ [{ : PartM }],
         currentPart := some s.parts.length },
       [s.parts.length])

/-- The `HKSTR` handler: move the cursor to the contour-local start, look up
the placement table under the line's `N` number, and open one contour per
placed part (in the current part, creating an anonymous one if none is open,
when the lookup comes back empty). -/
def hkstrStep (s : ParseState) (u : List Char) : Except PyErr ParseState := do
  let vals := extractCallFloats u "HKSTR".toList
  let x' ← argOr vals 2 s.x
  let y' ← argOr vals 3 s.y
  let sp := hkstrPlacements s u
  let ctype ← ctypeArg vals
  let c0 : ContourM :=
    { kind := if ctype = 0 then .outer else .hole,
      hkstr := vals, segments := [] }
  let opened := openContours sp.1.parts c0 sp.2
  return { sp.1 with
    x := x', y := y',
    parts := opened.1,
    currentContours := opened.2 }

/-- The `G1` handler (reached only while cutting with open contours): read
`X`/`Y` defaulting to the cursor, append an offset line segment to every open
contour, update the cursor. -/
def g1Step (s : ParseState) (u : List Char) : ParseState :=
  let nx := (searchKey 'X' u).getD s.x
  let ny := (searchKey 'Y' u).getD s.y
  { s with
    parts := appendSegAll s.parts s.currentContours (fun off =>
      Seg.line (s.x + off.1, s.y + off.2) (nx + off.1, ny + off.2)),
    x := nx, y := ny }

/-- The `G2`/`G3` handler (reached only while cutting with open contours):
only when all of `X`, `Y`, `I`, `J` are present, tessellate the arc (with the
placement offset applied to start and end) into every open contour and
update the cursor; otherwise skip the line. -/
noncomputable def g23Step (s : ParseState) (u : List Char) : ParseState :=
  match searchKey 'X' u, searchKey 'Y' u, searchKey 'I' u, searchKey 'J' u with
  | some nx, some ny, some iv, some jv =>
    { s with
      parts := appendSegAll s.parts s.currentContours (fun off =>
        Seg.polyline (arcPoints
          (((s.x + off.1 : ℚ) : ℝ), ((s.y + off.2 : ℚ) : ℝ))
          (((nx + off.1 : ℚ) : ℝ), ((ny + off.2 : ℚ) : ℝ))
          (iv : ℝ) (jv : ℝ) ("G2".toList.isPrefixOf u))),
      x := nx, y := ny }
  | _, _, _, _ => s

/-- Dispatch of one uppercased, stripped, non-empty line in the source's
priority order. -/
noncomputable def parseStepU (s : ParseState) (u : List Char) :
    Except PyErr ParseState :=
  if "HKINI".toList.isPrefixOf u then hkiniStep s u
  else if containsSub "HKOST(".toList u then hkostStep s u
  else if containsSub "HKSTR(".toList u then hkstrStep s u
  else if containsSub "HKCUT".toList u then
    .ok { s with cutOn := true }
  else if containsSub "HKSTO".toList u then
    .ok { s with cutOn := false, currentContours := [] }
  else if containsSub "HKPED".toList u then
    .ok { s with currentPart := none, currentContours := [], cutOn := false }
  else if "WHEN".toList.isPrefixOf u then .ok s
  else if ¬ s.cutOn ∨ s.currentContours = [] then .ok s
  else if "G1".toList.isPrefixOf u then .ok (g1Step s u)
  else if "G2".toList.isPrefixOf u ∨ "G3".toList.isPrefixOf u then
    .ok (g23Step s u)
  else .ok s

/-- One line of `parse_hk_mpf`: strip, skip when empty, uppercase,
dispatch. -/
noncomputable def parseStep (s : ParseState) (raw : String) :
    Except PyErr ParseState :=
  if pyStrip raw.toList = [] then .ok s
  else parseStepU s (upperChars (pyStrip raw.toList))

/-- The parse loop over the (already split) lines of the program text. -/
noncomputable def parseLines (lines : List String) : Except PyErr ParseState :=
  lines.foldlM parseStep {}

/-- The effect of one line on the sheet dimensions, read off the dispatch
order: only a non-empty line whose stripped uppercase starts with `HKINI`
and carries at least 3 numeric arguments touches the sheet, overwriting it
with `(args[1], args[2])`; every other line leaves it unchanged.  Folding
this over the lines characterises the parser's sheet as the *last*
qualifying `HKINI` line's dimensions. -/
def hkiniUpdate (wh : Option ℚ × Option ℚ) (raw : String) :
    Option ℚ × Option ℚ :=
  let line := pyStrip raw.toList
  if line = [] then wh
  else
    let u := upperChars line
    if "HKINI".toList.isPrefixOf u then
      let vals := extractCallFloats u "HKINI".toList
      if 3 ≤ vals.length then (some (vals.getD 1 0), some (vals.getD 2 0))
      else wh
    else wh

/-- Sequential contour-id assignment inside one part. -/
def assignIdsContours : List ContourM → Nat → List ContourM × Nat
  | [], n => ([], n)
  | c :: rest, n =>
    let (rest', n') := assignIdsContours rest (n + 1)
    ({ c with id := n } :: rest', n')

/-- Sequential contour-id assignment across the whole program, starting at 1
in discovery order. -/
def assignIdsParts : List PartM → Nat → List PartM × Nat
  | [], n => ([], n)
  | p :: rest, n =>
    let (cs', n1) := assignIdsContours p.contours n
    let (rest', n2) := assignIdsParts rest n1
    ({ p with contours := cs' } :: rest', n2)

/-- The parser's output model: sheet size plus parts. -/
structure Program where
  sheet : ℚ × ℚ
  parts : List PartM

/-- Post-parse finishing: default the sheet to zero (`width or 0.0`) and
assign contour ids. -/
def finishProgram (s : ParseState) : Program :=
  { sheet := (s.sheetW.getD 0, s.sheetH.getD 0),
    parts := (assignIdsParts s.parts 1).1 }

/-- Model of `parse_hk_mpf` on the split lines of the input text. -/
noncomputable def parseHkMpf (lines : List String) : Except PyErr Program :=
  (parseLines lines).map finishProgram

/-! ### SkeletonPlanner

Model of `compute_skeleton` (`src/app/main.py:3818-3877`,
`src/mts-hk-cutplan/app/main.py:280-322`) for part polygons that are
axis-aligned rectangles, the class of inputs exercised by the spec's planner
test cases.  The Shapely boolean operations are modelled on the 1-D trace of
each axis-aligned probe line with regularised (closure-of-interior) boolean
semantics:

* `sheet_poly.difference(parts_union)` restricted to a probe line is the
  sheet's trace interval minus every part's trace interval (subtracting the
  parts one by one equals subtracting their union); `buffer(0)` applied to
  these polygonal operands is the validity-fixing identity;
* the intersection of the probe `LineString` with that region is the
  resulting interval list — a linear geometry, as is its subsequent
  `difference` with the parts union;
* the source then reassigns
  `clipped = clipped.difference(parts_union).buffer(0)`: Shapely's
  zero-width buffer of a zero-area geometry (a `LineString`,
  `MultiLineString` or `Point` — all a line clipped by polygons can be) is
  `POLYGON EMPTY`, so its trace on the probe line is empty
  (`buffer0OfLinear`), the following `clipped.is_empty` test always fires
  and the `geom_type` dispatch below it is dead code;
* Shapely's geometry typing in that (dead) dispatch is mirrored exactly:
  one positive-length interval is a `LineString` (kept), several
  all-positive intervals a `MultiLineString` (kept where longer than
  `1e-4`), a single degenerate interval a `Point` and any mixed collection a
  `GeometryCollection`, both of which fall through the source's two
  `geom_type` branches and are dropped.

`specClipProbe`/`specComputeSkeleton` render the same pipeline as the
specification words it — clip the five candidate lines against the sheet
minus the parts and keep the surviving chords — i.e. without the
annihilating zero-width buffer; they exist only to compare the spec's
claimed planner output with the code's. -/

/-- An axis-aligned closed rectangle part polygon. -/
structure Rect where
  x0 : ℚ
  y0 : ℚ
  x1 : ℚ
  y1 : ℚ
  deriving DecidableEq, Repr

/-- A closed interval on a probe line (in the probe's axis coordinate). -/
structure Iv where
  lo : ℚ
  hi : ℚ
  deriving DecidableEq, Repr

/-- Regularised difference of closed intervals:
`a \ b` keeps the closed left and right remainders that have interior. -/
def ivSub (a b : Iv) : List Iv :=
  (if a.lo < b.lo then [⟨a.lo, min a.hi b.lo⟩] else []) ++
  (if b.hi < a.hi then [⟨max a.lo b.hi, a.hi⟩] else [])

/-- Subtract one interval from every interval of a list. -/
def ivsSubOne (as : List Iv) (b : Iv) : List Iv :=
  (as.map (fun a => ivSub a b)).flatten

/-- Subtract a list of intervals from a list of intervals. -/
def ivsSub (as bs : List Iv) : List Iv :=
  bs.foldl ivsSubOne as

/-- One of the five fixed candidate probe lines. -/
inductive Probe where
  | horiz (y : ℚ)
  | vert (x : ℚ)
  deriving DecidableEq, Repr

/-- Trace of a rectangle along a probe line. -/
def traceRect (p : Probe) (r : Rect) : Option Iv :=
  match p with
  | .horiz y => if r.y0 ≤ y ∧ y ≤ r.y1 then some ⟨r.x0, r.x1⟩ else none
  | .vert x => if r.x0 ≤ x ∧ x ≤ r.x1 then some ⟨r.y0, r.y1⟩ else none

/-- Trace of the sheet rectangle `(0,0)-(w,h)` along a probe line; the probe
spans exactly the sheet's extent, so this is also the probe/sheet
intersection. -/
def sheetTrace (w h : ℚ) (p : Probe) : List Iv :=
  match p with
  | .horiz y => if 0 ≤ y ∧ y ≤ h then [⟨0, w⟩] else []
  | .vert x => if 0 ≤ x ∧ x ≤ w then [⟨0, h⟩] else []

/-- Shapely `.buffer(0)` applied to the linear clipped probe trace: the
zero-width buffer of a `LineString`, `MultiLineString` or `Point` is the
empty polygon, whose trace on the probe line is empty. -/
def buffer0OfLinear (_ivs : List Iv) : List Iv := []

/-- The clipped probe line as the code computes it: probe ∩ (sheet − parts)
(an empty first result would be dropped by the source's first `is_empty`
check, and is equally dropped here since subtracting from the empty trace
leaves it empty), then the source's reassignment
`clipped.difference(parts_union).buffer(0)` — the defensive second
subtraction of the parts union followed by the zero-width buffer that turns
the linear result into the empty polygon. -/
def clipProbe (w h : ℚ) (parts : List Rect) (p : Probe) : List Iv :=
  let partIvs := parts.filterMap (traceRect p)
  let skel := ivsSub (sheetTrace w h p) partIvs
  buffer0OfLinear (ivsSub skel partIvs)

/-- The clipped probe line as the specification words the pipeline: probe ∩
(sheet − parts) with the defensive second subtraction but without the
annihilating zero-width buffer.  Spec-side definition, for comparison with
`clipProbe` only. -/
def specClipProbe (w h : ℚ) (parts : List Rect) (p : Probe) : List Iv :=
  let partIvs := parts.filterMap (traceRect p)
  let skel := ivsSub (sheetTrace w h p) partIvs
  ivsSub skel partIvs

/-- Chord endpoints of an interval on a probe line, in the probe's own
orientation (increasing coordinate), matching the coordinate order Shapely
returns for the intersection of the candidate `LineString` with a region. -/
def probeChord (p : Probe) (iv : Iv) : (ℚ × ℚ) × (ℚ × ℚ) :=
  match p with
  | .horiz y => ((iv.lo, y), (iv.hi, y))
  | .vert x => ((x, iv.lo), (x, iv.hi))

/-- The surviving chords of one probe, mirroring the `geom_type` dispatch of
the source. -/
def cutsOfProbe (p : Probe) (ivs : List Iv) : List ((ℚ × ℚ) × (ℚ × ℚ)) :=
  match ivs with
  | [] => []
  | [iv] => if iv.lo < iv.hi then [probeChord p iv] else []
  | _ =>
    if ivs.all (fun i => i.lo < i.hi) then
      (ivs.filter (fun i => i.hi - i.lo > 1/10000)).map (probeChord p)
    else []

/-- Model of `compute_skeleton` for rectangle parts: probe the three
horizontal lines at `y = h/4, h/2, 3h/4` and the two vertical lines at
`x = w/3, 2w/3` against the remaining material, keep the surviving chords
and number them sequentially from 1 in probe order. -/
def computeSkeleton (w h : ℚ) (parts : List Rect) : List SkelCut :=
  let probes := [Probe.horiz (h * (1/4)), Probe.horiz (h * (2/4)),
                 Probe.horiz (h * (3/4)), Probe.vert (w * (1/3)),
                 Probe.vert (w * (2/3))]
  let chords := (probes.map (fun p => cutsOfProbe p (clipProbe w h parts p))).flatten
  chords.enum.map (fun e => ⟨e.1 + 1, e.2.1, e.2.2⟩)

/-- The planner pipeline as the specification describes it: identical to
`computeSkeleton` but clipping with `specClipProbe` (no zero-width buffer).
Spec-side definition, for comparison only. -/
def specComputeSkeleton (w h : ℚ) (parts : List Rect) : List SkelCut :=
  let probes := [Probe.horiz (h * (1/4)), Probe.horiz (h * (2/4)),
                 Probe.horiz (h * (3/4)), Probe.vert (w * (1/3)),
                 Probe.vert (w * (2/3))]
  let chords := (probes.map (fun p =>
    cutsOfProbe p (specClipProbe w h parts p))).flatten
  chords.enum.map (fun e => ⟨e.1 + 1, e.2.1, e.2.2⟩)



/-! Concrete parser states used to witness the `HKOST`/`HKSTR` placement
behaviour: an `HKOST` line registering program id 5, then `HKSTR` lines with
a matching `N5` key, with no key while a part is open, and with no key in the
empty state. -/

def c3state0 : ParseState := {}
def c3uOst : List Char := "HKOST(10,20,0,5,1)".toList
def c3s1 : ParseState := ((hkostStep c3state0 c3uOst).toOption).getD {}
def c3uStrN5 : List Char := "N5 HKSTR(0,0,1,2)".toList
def c3s2 : ParseState := ((hkstrStep c3s1 c3uStrN5).toOption).getD {}
def c3uStrPlain : List Char := "HKSTR(1,0,3,4)".toList
def c3s3 : ParseState := ((hkstrStep c3s1 c3uStrPlain).toOption).getD {}
def c3s4 : ParseState := ((hkstrStep c3state0 c3uStrPlain).toOption).getD {}


/-! ## Theorems

Helper lemmas first, then one theorem per claim of the specification review,
each preceded by a doc comment naming the claim. -/

/-! ### Lexer helper lemmas -/

theorem matchNum_pos {cs : List Char} {q : ℚ} {n : Nat}
    (h : matchNum cs = some (q, n)) : 1 ≤ n ∧ cs ≠ [] := by
  rcases cs with _ | ⟨c, t⟩
  · simp [matchNum] at h
  · refine ⟨?_, by simp⟩
    unfold matchNum at h
    dsimp only at h
    split at h
    · rename_i hd1
      have h1 := List.length_pos.mpr hd1
      split at h <;> simp only [Option.some.injEq, Prod.mk.injEq] at h <;> omega
    · split at h
      · split at h
        · simp only [Option.some.injEq, Prod.mk.injEq] at h; omega
        · exact absurd h (by simp)
      · exact absurd h (by simp)

/-- Any fuel of at least the character count gives the same token list, so
`lexFloats` is the scanning loop's true (fuel-independent) semantics. -/
theorem lexFloatsAux_fuel (fuel fuel' : Nat) (cs : List Char)
    (h : cs.length ≤ fuel) (h' : cs.length ≤ fuel') :
    lexFloatsAux fuel cs = lexFloatsAux fuel' cs := by
  induction fuel using Nat.strong_induction_on generalizing fuel' cs with
  | _ fuel ih =>
    match fuel, fuel' with
    | 0, 0 => rfl
    | 0, _ + 1 =>
      have : cs = [] := List.length_eq_zero.mp (Nat.le_zero.mp h)
      subst this; rfl
    | _ + 1, 0 =>
      have : cs = [] := List.length_eq_zero.mp (Nat.le_zero.mp h')
      subst this; rfl
    | f + 1, f' + 1 =>
      cases cs with
      | nil => rfl
      | cons c t =>
        simp only [List.length_cons] at h h'
        cases hm : matchNum (c :: t) with
        | some v =>
          obtain ⟨q, n⟩ := v
          have hpos := matchNum_pos hm
          have hlen : ((c :: t).drop n).length ≤ f := by
            simp only [List.length_drop, List.length_cons]
            omega
          have hlen' : ((c :: t).drop n).length ≤ f' := by
            simp only [List.length_drop, List.length_cons]
            omega
          simp only [lexFloatsAux, hm]
          rw [ih f (Nat.lt_succ_self f) f' ((c :: t).drop n) hlen hlen']
        | none =>
          simp only [lexFloatsAux, hm]
          exact ih f (Nat.lt_succ_self f) f' t (by omega) (by omega)

/-! ### Winding-normalisation loop lemmas -/

theorem normWinding_cw_fix {a0 a1 : ℝ} (h : a1 ≤ a0) :
    normWinding true a0 a1 = a1 := by
  have hπ := Real.pi_pos
  have hq : (a1 - a0) / (2 * Real.pi) ≤ 0 :=
    div_nonpos_of_nonpos_of_nonneg (by linarith) (by linarith)
  have hc : ⌈(a1 - a0) / (2 * Real.pi)⌉ ≤ 0 := Int.ceil_le.mpr (by exact_mod_cast hq)
  simp only [normWinding, if_true]
  rw [max_eq_left hc]
  push_cast
  ring

theorem normWinding_cw_step {a0 a1 : ℝ} (h : a0 < a1) :
    normWinding true a0 a1 ≤ a0 ∧ a0 - 2 * Real.pi < normWinding true a0 a1 := by
  have hπ := Real.pi_pos
  have h2π : (0:ℝ) < 2 * Real.pi := by linarith
  have hq : 0 < (a1 - a0) / (2 * Real.pi) := div_pos (by linarith) h2π
  have hc : 0 < ⌈(a1 - a0) / (2 * Real.pi)⌉ := Int.ceil_pos.mpr hq
  have hmax : (max 0 ⌈(a1 - a0) / (2 * Real.pi)⌉ : ℤ) = ⌈(a1 - a0) / (2 * Real.pi)⌉ :=
    max_eq_right hc.le
  have hle : (a1 - a0) / (2 * Real.pi) ≤ (⌈(a1 - a0) / (2 * Real.pi)⌉ : ℝ) :=
    Int.le_ceil _
  have hlt : (⌈(a1 - a0) / (2 * Real.pi)⌉ : ℝ) < (a1 - a0) / (2 * Real.pi) + 1 :=
    Int.ceil_lt_add_one _
  have hdm : (a1 - a0) / (2 * Real.pi) * (2 * Real.pi) = a1 - a0 :=
    div_mul_cancel₀ _ (ne_of_gt h2π)
  simp only [normWinding, if_true, hmax]
  constructor
  · nlinarith
  · nlinarith

theorem normWinding_ccw_fix {a0 a1 : ℝ} (h : a0 ≤ a1) :
    normWinding false a0 a1 = a1 := by
  have hπ := Real.pi_pos
  have hq : (a0 - a1) / (2 * Real.pi) ≤ 0 :=
    div_nonpos_of_nonpos_of_nonneg (by linarith) (by linarith)
  have hc : ⌈(a0 - a1) / (2 * Real.pi)⌉ ≤ 0 := Int.ceil_le.mpr (by exact_mod_cast hq)
  simp only [normWinding, if_false, Bool.false_eq_true]
  rw [max_eq_left hc]
  push_cast
  ring

theorem normWinding_ccw_step {a0 a1 : ℝ} (h : a1 < a0) :
    a0 ≤ normWinding false a0 a1 ∧ normWinding false a0 a1 < a0 + 2 * Real.pi := by
  have hπ := Real.pi_pos
  have h2π : (0:ℝ) < 2 * Real.pi := by linarith
  have hq : 0 < (a0 - a1) / (2 * Real.pi) := div_pos (by linarith) h2π
  have hc : 0 < ⌈(a0 - a1) / (2 * Real.pi)⌉ := Int.ceil_pos.mpr hq
  have hmax : (max 0 ⌈(a0 - a1) / (2 * Real.pi)⌉ : ℤ) = ⌈(a0 - a1) / (2 * Real.pi)⌉ :=
    max_eq_right hc.le
  have hle : (a0 - a1) / (2 * Real.pi) ≤ (⌈(a0 - a1) / (2 * Real.pi)⌉ : ℝ) :=
    Int.le_ceil _
  have hlt : (⌈(a0 - a1) / (2 * Real.pi)⌉ : ℝ) < (a0 - a1) / (2 * Real.pi) + 1 :=
    Int.ceil_lt_add_one _
  have hdm : (a0 - a1) / (2 * Real.pi) * (2 * Real.pi) = a0 - a1 :=
    div_mul_cancel₀ _ (ne_of_gt h2π)
  simp only [normWinding, if_false, Bool.false_eq_true, hmax]
  constructor
  · nlinarith
  · nlinarith

/-! ### Block-splitting lemmas for the reorder transform -/

theorem splitStep_other {a : SplitAcc} {l : String}
    (hl : hasStrLine l = false) (hin : a.inBlock = false) :
    splitStep a l = if a.seenAny then { a with post := a.post ++ [l] }
                    else { a with pre := a.pre ++ [l] } := by
  unfold hasStrLine at hl
  simp only [splitStep, hl, hin]
  by_cases hs : a.seenAny <;> simp [hs]

theorem splitStep_str {a : SplitAcc} {l : String}
    (hl : hasStrLine l = true) :
    splitStep a l = { a with seenAny := true, inBlock := true, cur := [l] } := by
  unfold hasStrLine at hl
  simp only [splitStep, hl]
  simp

theorem splitStep_mid {a : SplitAcc} {l : String}
    (hl : hasStrLine l = false) (hl2 : hasStoLine l = false)
    (hin : a.inBlock = true) :
    splitStep a l = { a with cur := a.cur ++ [l] } := by
  unfold hasStrLine at hl
  unfold hasStoLine at hl2
  simp only [splitStep, hl, hl2, hin]
  simp

theorem splitStep_sto {a : SplitAcc} {l : String}
    (hl : hasStrLine l = false) (hl2 : hasStoLine l = true)
    (hin : a.inBlock = true) :
    splitStep a l = { a with blocks := a.blocks ++ [a.cur ++ [l]],
                             inBlock := false, cur := [] } := by
  unfold hasStrLine at hl
  unfold hasStoLine at hl2
  simp only [splitStep, hl, hl2, hin]
  simp

theorem foldl_splitStep_pre (pre : List String) (a : SplitAcc)
    (hpre : ∀ l ∈ pre, hasStrLine l = false)
    (hin : a.inBlock = false) (hseen : a.seenAny = false) :
    List.foldl splitStep a pre = { a with pre := a.pre ++ pre } := by
  induction pre generalizing a with
  | nil => simp
  | cons l t ih =>
    have hl := hpre l (by simp)
    have ht : ∀ x ∈ t, hasStrLine x = false := fun x hx => hpre x (by simp [hx])
    simp only [List.foldl_cons]
    rw [splitStep_other hl hin, if_neg (by simp [hseen])]
    rw [ih { a with pre := a.pre ++ [l] } ht hin hseen]
    simp

theorem foldl_splitStep_post (post : List String) (a : SplitAcc)
    (hpost : ∀ l ∈ post, hasStrLine l = false)
    (hin : a.inBlock = false) (hseen : a.seenAny = true) :
    List.foldl splitStep a post = { a with post := a.post ++ post } := by
  induction post generalizing a with
  | nil => simp
  | cons l t ih =>
    have hl := hpost l (by simp)
    have ht : ∀ x ∈ t, hasStrLine x = false := fun x hx => hpost x (by simp [hx])
    simp only [List.foldl_cons]
    rw [splitStep_other hl hin, if_pos (by simp [hseen])]
    rw [ih { a with post := a.post ++ [l] } ht hin hseen]
    simp

theorem foldl_splitStep_mid (mid : List String) (a : SplitAcc)
    (hmid : ∀ l ∈ mid, hasStrLine l = false ∧ hasStoLine l = false)
    (hin : a.inBlock = true) :
    List.foldl splitStep a mid = { a with cur := a.cur ++ mid } := by
  induction mid generalizing a with
  | nil => simp
  | cons l t ih =>
    have hl := hmid l (by simp)
    have ht : ∀ x ∈ t, hasStrLine x = false ∧ hasStoLine x = false :=
      fun x hx => hmid x (by simp [hx])
    simp only [List.foldl_cons]
    rw [splitStep_mid hl.1 hl.2 hin]
    rw [ih { a with cur := a.cur ++ [l] } ht hin]
    simp

theorem foldl_splitStep_block (b : List String) (a : SplitAcc)
    (hb : WellBlock b) :
    List.foldl splitStep a b =
      { a with blocks := a.blocks ++ [b], inBlock := false, cur := [],
               seenAny := true } := by
  obtain ⟨hd, mid, lst, rfl, hhd, hmid, hlst1, hlst2⟩ := hb
  rw [List.foldl_cons]
  rw [splitStep_str hhd]
  rw [List.foldl_append]
  rw [foldl_splitStep_mid mid
    { a with seenAny := true, inBlock := true, cur := [hd] } hmid rfl]
  simp only [List.foldl_cons, List.foldl_nil]
  rw [splitStep_sto hlst1 hlst2 rfl]
  simp

theorem foldl_splitStep_blocks (bs : List (List String)) (a : SplitAcc)
    (hbs : ∀ b ∈ bs, WellBlock b) (hne : bs ≠ []) :
    List.foldl splitStep a bs.flatten =
      { a with blocks := a.blocks ++ bs, inBlock := false, cur := [],
               seenAny := true } := by
  induction bs generalizing a with
  | nil => exact absurd rfl hne
  | cons b rest ih =>
    simp only [List.flatten_cons]
    rw [List.foldl_append]
    rw [foldl_splitStep_block b a (hbs b (by simp))]
    cases rest with
    | nil => simp
    | cons r rs =>
      rw [ih _ (fun x hx => hbs x (by simp [hx])) (by simp)]
      simp

/-- The splitting loop on a canonically shaped input — preamble free of
`HKSTR(`, well-formed blocks, trailing lines free of `HKSTR(` — recovers
exactly that decomposition. -/
theorem splitBlocks_canonical (pre : List String) (bs : List (List String))
    (post : List String)
    (hpre : ∀ l ∈ pre, hasStrLine l = false)
    (hbs : ∀ b ∈ bs, WellBlock b) (hne : bs ≠ [])
    (hpost : ∀ l ∈ post, hasStrLine l = false) :
    splitBlocks (pre ++ bs.flatten ++ post) =
      { blocks := bs, pre := pre, post := post, inBlock := false, cur := [],
        seenAny := true } := by
  unfold splitBlocks
  rw [List.foldl_append, List.foldl_append]
  rw [foldl_splitStep_pre pre splitInit hpre rfl rfl]
  rw [foldl_splitStep_blocks bs _ hbs hne]
  rw [foldl_splitStep_post post _ hpost rfl rfl]
  simp [splitInit]

/-! ### Python-indexing lemmas for the reorder transform -/

theorem pyGet_isSome {α : Type} {l : List α} {i : ℤ} (h1 : -(l.length : ℤ) ≤ i)
    (h2 : i < l.length) : (pyGet l i).isSome := by
  unfold pyGet
  by_cases h0 : 0 ≤ i
  · rw [if_pos h0]
    have : i.toNat < l.length := by omega
    simp [List.getElem?_eq_getElem this]
  · rw [if_neg h0, if_pos (by omega)]
    have : (i + l.length).toNat < l.length := by omega
    simp [List.getElem?_eq_getElem this]

theorem pickBlock_ok {blocks : List (List String)} {e : ℤ}
    (h1 : 1 - (blocks.length : ℤ) ≤ e) (h2 : e ≤ blocks.length) :
    pickBlock blocks e = .ok (pySelect blocks e) := by
  have hs : (pyGet blocks (e - 1)).isSome := pyGet_isSome (by omega) (by omega)
  unfold pickBlock pySelect
  obtain ⟨b, hb⟩ := Option.isSome_iff_exists.mp hs
  rw [hb]
  rfl

theorem mapM_pickBlock_ok {blocks : List (List String)} (order : List ℤ)
    (h : ∀ e ∈ order, 1 - (blocks.length : ℤ) ≤ e ∧ e ≤ blocks.length) :
    order.mapM (pickBlock blocks) = .ok (order.map (pySelect blocks)) := by
  induction order with
  | nil => rfl
  | cons x xs ih =>
    have hx := h x (by simp)
    rw [List.mapM_cons, pickBlock_ok hx.1 hx.2,
        ih (fun e he => h e (by simp [he]))]
    rfl

theorem mapM_pickBlock_err {blocks : List (List String)} (order : List ℤ)
    (h : ∃ e ∈ order, pyGet blocks (e - 1) = none) :
    order.mapM (pickBlock blocks) = .error .indexError := by
  induction order with
  | nil => simp at h
  | cons x xs ih =>
    rw [List.mapM_cons]
    cases hx : pyGet blocks (x - 1) with
    | none =>
      show (pickBlock blocks x >>= _) = _
      rw [show pickBlock blocks x = .error .indexError by
        unfold pickBlock; rw [hx]]
      rfl
    | some b =>
      obtain ⟨e, he, hnone⟩ := h
      rcases List.mem_cons.mp he with rfl | hmem
      · rw [hx] at hnone; exact absurd hnone (by simp)
      · show (pickBlock blocks x >>= _) = _
        rw [show pickBlock blocks x = .ok b by unfold pickBlock; rw [hx]]
        show (xs.mapM (pickBlock blocks) >>= _) = _
        rw [ih ⟨e, hmem, hnone⟩]
        rfl

theorem pySelect_pos {bs : List (List String)} {e : ℤ} (h : 1 ≤ e) :
    pySelect bs e = bs.getD (e - 1).toNat [] := by
  unfold pySelect pyGet
  rw [if_pos (by omega : (0:ℤ) ≤ e - 1)]
  rw [List.getD_eq_getElem?_getD]

theorem pySelect_zero (bs : List (List String)) :
    pySelect bs 0 = (bs.getLast?).getD [] := by
  unfold pySelect pyGet
  cases bs with
  | nil => rfl
  | cons b t =>
    rw [if_neg (by omega),
        if_pos (by simp only [List.length_cons]; push_cast; omega)]
    rw [List.getLast?_eq_getElem?]
    have hidx : ((0:ℤ) - 1 + ((b :: t).length : ℤ)).toNat = (b :: t).length - 1 := by
      simp only [List.length_cons]
      omega
    rw [hidx]

/-! ### Claim C2 -/

/-- C2: `export_reordered_mpf` fails with the length-mismatch error whenever
the order list's length differs from the number of `HKSTR`-through-`HKSTO`
blocks of the original text, and on that failure it produces no output text
(the route writes the artifact only after a successful return, so none is
written). -/
theorem c2_reorder_length_mismatch (lines : List String) (order : List ℤ)
    (h : order.length ≠ (splitBlocks lines).blocks.length) :
    exportReorderedText lines order =
      .error (.lengthMismatch order.length (splitBlocks lines).blocks.length) ∧
    ∀ out, exportReorderedText lines order ≠ .ok out := by
  have hm : exportReorderedMpf lines order =
      .error (.lengthMismatch order.length (splitBlocks lines).blocks.length) := by
    unfold exportReorderedMpf
    simp only [if_pos h]
  constructor
  · unfold exportReorderedText
    rw [hm]
    rfl
  · intro out
    unfold exportReorderedText
    rw [hm]
    simp [Except.map]

/-- C2 witness: a 3-block program with an order of length 2. -/
theorem c2_reorder_length_mismatch_witness :
    exportReorderedText
      ["HKINI(0,9,9)",
       "N1 HKSTR(0,1,1,1)", "HKSTO(0)",
       "N2 HKSTR(0,1,2,2)", "HKSTO(0)",
       "N3 HKSTR(0,1,3,3)", "HKSTO(0)",
       "M30"] [1, 2] =
      .error (.lengthMismatch 2 3) :=
  (c2_reorder_length_mismatch _ _ (by decide)).1

/-! ### Claim C10 -/

/-- C10: the reorder transform validates only the length of `order`, never
the range of its entries.  With a length-matching order whose entries stay in
Python's valid index window `1 - n ≤ e ≤ n`, it succeeds and each entry `e`
selects `blocks[e - 1]` by end-relative indexing — in particular entry `0`
selects the *last* original block.  An entry greater than `n` instead raises
an `IndexError`, which is a different error from the length mismatch. -/
theorem c10_reorder_range_semantics :
    (∀ (lines : List String) (order : List ℤ),
      order.length = (splitBlocks lines).blocks.length →
      (∀ e ∈ order, 1 - ((splitBlocks lines).blocks.length : ℤ) ≤ e ∧
        e ≤ ((splitBlocks lines).blocks.length : ℤ)) →
      exportReorderedMpf lines order =
        .ok ((splitBlocks lines).pre ++
             (order.map (pySelect (splitBlocks lines).blocks)).flatten ++
             (splitBlocks lines).post)) ∧
    (∀ bs : List (List String), pySelect bs 0 = (bs.getLast?).getD []) ∧
    (∀ (lines : List String) (order : List ℤ),
      order.length = (splitBlocks lines).blocks.length →
      (∃ e ∈ order, ((splitBlocks lines).blocks.length : ℤ) < e) →
      exportReorderedMpf lines order = .error .indexError) ∧
    (∀ m k, ReorderErr.indexError ≠ ReorderErr.lengthMismatch m k) := by
  refine ⟨?_, pySelect_zero, ?_, ?_⟩
  · intro lines order hlen hrange
    unfold exportReorderedMpf
    simp only [if_neg (by omega : ¬ order.length ≠ (splitBlocks lines).blocks.length)]
    rw [mapM_pickBlock_ok order hrange]
  · intro lines order hlen hbig
    unfold exportReorderedMpf
    simp only [if_neg (by omega : ¬ order.length ≠ (splitBlocks lines).blocks.length)]
    obtain ⟨e, he, hgt⟩ := hbig
    rw [mapM_pickBlock_err order ⟨e, he, ?_⟩]
    unfold pyGet
    rw [if_pos (by omega : (0:ℤ) ≤ e - 1)]
    exact List.getElem?_eq_none (by omega)
  · intro m k h
    exact ReorderErr.noConfusion h

/-- C10 witness: on a 3-block program, order `[0, 1, -1]` succeeds — the
position holding `0` receives the third (last) original block and `-1` the
second — while order `[1, 2, 4]` fails with the index error. -/
theorem c10_reorder_range_semantics_witness :
    exportReorderedMpf
      ["P", "N1 HKSTR(1)", "HKSTO", "N2 HKSTR(2)", "HKSTO",
       "N3 HKSTR(3)", "HKSTO", "M30"] [0, 1, -1] =
      .ok ["P", "N3 HKSTR(3)", "HKSTO", "N1 HKSTR(1)", "HKSTO",
           "N2 HKSTR(2)", "HKSTO", "M30"] ∧
    exportReorderedMpf
      ["P", "N1 HKSTR(1)", "HKSTO", "N2 HKSTR(2)", "HKSTO",
       "N3 HKSTR(3)", "HKSTO", "M30"] [1, 2, 4] =
      .error .indexError :=
  ⟨c10_reorder_range_semantics.1 _ [0, 1, -1] (by decide) (by decide),
   c10_reorder_range_semantics.2.2.1 _ [1, 2, 4] (by decide)
     ⟨4, by decide, by decide⟩⟩

/-! ### Claim C6 -/

/-- C6 counterexample: with a non-block line (`"JUNK"`) between two blocks,
the code relocates it after the reordered blocks, so the output differs from
the claimed `preamble ++ blocks[order] ++ postamble` shape in which the
postamble is "everything after the last block" (here only `"TAIL"`). -/
theorem c6_reorder_formula_counterexample :
    exportReorderedText
      ["A", "N1 HKSTR(1)", "HKSTO", "JUNK", "N2 HKSTR(2)", "HKSTO", "TAIL"]
      [1, 2] =
      .ok "A\nN1 HKSTR(1)\nHKSTO\nN2 HKSTR(2)\nHKSTO\nJUNK\nTAIL" ∧
    "A\nN1 HKSTR(1)\nHKSTO\nN2 HKSTR(2)\nHKSTO\nJUNK\nTAIL" ≠
      "A\nN1 HKSTR(1)\nHKSTO\nN2 HKSTR(2)\nHKSTO\nTAIL" :=
  ⟨rfl, by decide⟩

/-- C6 (amended): when every line after the first `HKSTR(` line belongs to a
complete `HKSTR`-`HKSTO` block except for a trailing postamble — i.e. there
are no stray lines between blocks and no unterminated block — and the order
entries are 1-based indices within range, the reorder transform returns
exactly `preamble ++ blocks[order[0]-1] ++ ... ++ postamble`, with preamble
and postamble byte-identical to the input's. -/
theorem c6_reorder_permutation_formula (pre post : List String)
    (bs : List (List String)) (order : List ℤ)
    (hpre : ∀ l ∈ pre, hasStrLine l = false)
    (hbs : ∀ b ∈ bs, WellBlock b) (hne : bs ≠ [])
    (hpost : ∀ l ∈ post, hasStrLine l = false)
    (hlen : order.length = bs.length)
    (hrange : ∀ e ∈ order, 1 ≤ e ∧ e ≤ (bs.length : ℤ)) :
    exportReorderedText (pre ++ bs.flatten ++ post) order =
      .ok (String.intercalate "\n"
        (pre ++ (order.map (fun e => bs.getD (e - 1).toNat [])).flatten ++
         post)) := by
  have hsplit := splitBlocks_canonical pre bs post hpre hbs hne hpost
  unfold exportReorderedText exportReorderedMpf
  simp only [hsplit]
  rw [if_neg (show ¬ order.length ≠ bs.length by omega)]
  rw [mapM_pickBlock_ok order (fun e he =>
    ⟨by have := (hrange e he).1; omega, (hrange e he).2⟩)]
  show Except.map _ (Except.ok _) = _
  simp only [Except.map]
  have hmap : List.map (pySelect bs) order =
      List.map (fun e => bs.getD (e - 1).toNat []) order :=
    List.map_congr_left (fun e he => pySelect_pos (hrange e he).1)
  rw [hmap]

/-- C6 witness: the spec's example — three blocks reordered by `[3, 1, 2]`,
with preamble `"P1"` and postamble `"M30"` preserved byte-for-byte. -/
theorem c6_reorder_permutation_formula_witness :
    exportReorderedText
      ["P1", "N1 HKSTR(a)", "HKSTO x", "N2 HKSTR(b)", "MID", "HKSTO",
       "N3 HKSTR(c)", "HKSTO", "M30"] [3, 1, 2] =
      .ok ("P1\nN3 HKSTR(c)\nHKSTO\nN1 HKSTR(a)\nHKSTO x\n" ++
           "N2 HKSTR(b)\nMID\nHKSTO\nM30") := by
  have h := c6_reorder_permutation_formula ["P1"]
    ["M30"]
    [["N1 HKSTR(a)", "HKSTO x"], ["N2 HKSTR(b)", "MID", "HKSTO"],
     ["N3 HKSTR(c)", "HKSTO"]]
    [3, 1, 2]
    (by decide)
    (by
      intro b hb
      simp only [List.mem_cons, List.not_mem_nil, or_false] at hb
      rcases hb with rfl | rfl | rfl
      · exact ⟨"N1 HKSTR(a)", [], "HKSTO x", rfl, by decide, by decide,
          by decide, by decide⟩
      · exact ⟨"N2 HKSTR(b)", ["MID"], "HKSTO", rfl, by decide, by decide,
          by decide, by decide⟩
      · exact ⟨"N3 HKSTR(c)", [], "HKSTO", rfl, by decide, by decide,
          by decide, by decide⟩)
    (by decide) (by decide) (by decide) (by decide)
  exact h

/-! ### Claim C7 -/

/-- C7 (code bug): `compute_skeleton` reassigns every surviving candidate to
`clipped.difference(parts_union).buffer(0)`; the zero-width buffer of that
linear geometry is the empty polygon, so the following `is_empty` check
drops every candidate and the planner returns zero cuts for **every** input
— in particular the empty 10×10 sheet yields 0 cuts, not the claimed 5.
The pipeline as the spec words it (without the annihilating buffer,
`specComputeSkeleton`) does yield exactly the 5 claimed full-span cuts on
the empty sheet, and zero cuts when one part equals the sheet rectangle, so
the claim describes the intended behaviour and the buffer call is the bug. -/
theorem c7_skeleton_always_empty :
    (∀ (w h : ℚ) (parts : List Rect), computeSkeleton w h parts = []) ∧
    specComputeSkeleton 10 10 [] =
      [⟨1, (0, 5/2), (10, 5/2)⟩, ⟨2, (0, 5), (10, 5)⟩,
       ⟨3, (0, 15/2), (10, 15/2)⟩, ⟨4, (10/3, 0), (10/3, 10)⟩,
       ⟨5, (20/3, 0), (20/3, 10)⟩] ∧
    ((specComputeSkeleton 10 10 []).all fun c =>
      (c.b.1 - c.a.1) + (c.b.2 - c.a.2) == 10) = true ∧
    specComputeSkeleton 10 10 [⟨0, 0, 10, 10⟩] = [] :=
  ⟨fun _ _ _ => rfl, by with_unfolding_all rfl, by with_unfolding_all rfl,
   by with_unfolding_all rfl⟩

/-! ### Claim C9 -/

theorem synthBody_length (seq : Nat) (cuts : List SkelCut) :
    (synthBody seq cuts).length = 7 * cuts.length + 1 := by
  induction cuts generalizing seq with
  | nil => rfl
  | cons c rest ih =>
    simp only [synthBody, cutBlock, List.length_append, List.length_cons,
      ih, List.length_nil]
    omega

theorem synthLines_length (cuts : List SkelCut) :
    (synthLines cuts).length = 7 * cuts.length + 2 := by
  simp [synthLines, synthBody_length]

theorem insertAt_le (lines : List String) : insertAt lines ≤ lines.length :=
  List.findIdx_le_length _

/-- C9: `generate_skeleton_mpf` leaves every line before the insertion index
unchanged, inserts the synthesized `HKOST`/`HKSTR`/`HKCUT`/`HKSTO`/`HKPED`
block strictly between the preserved regions, and the output's suffix from
the line at the original insertion point on is byte-identical to the
original's corresponding suffix; the insertion index is the first line
containing `HKEND` or whose stripped form starts with `M30`, or end-of-file
when neither occurs. -/
theorem c9_generate_skeleton_frame (lines : List String) (cuts : List SkelCut) :
    generateSkeletonMpf lines cuts =
      lines.take (insertAt lines) ++ synthLines cuts ++
        lines.drop (insertAt lines) ∧
    (generateSkeletonMpf lines cuts).take (insertAt lines) =
      lines.take (insertAt lines) ∧
    (∀ i, i < insertAt lines →
      (generateSkeletonMpf lines cuts)[i]? = lines[i]?) ∧
    (generateSkeletonMpf lines cuts).length =
      lines.length + (7 * cuts.length + 2) ∧
    (generateSkeletonMpf lines cuts).drop
        (insertAt lines + (7 * cuts.length + 2)) =
      lines.drop (insertAt lines) ∧
    (∀ i, i < insertAt lines → ∀ l, lines[i]? = some l →
      isEndLine l = false) ∧
    (insertAt lines < lines.length →
      ∃ l, lines[insertAt lines]? = some l ∧ isEndLine l = true) := by
  have hle : insertAt lines ≤ lines.length := insertAt_le lines
  have htl : (lines.take (insertAt lines)).length = insertAt lines := by
    simp [List.length_take]
    omega
  refine ⟨rfl, ?_, ?_, ?_, ?_, ?_, ?_⟩
  · unfold generateSkeletonMpf
    rw [List.append_assoc, List.take_append_of_le_length (by omega),
        List.take_take]
    simp [Nat.min_self]
  · intro i hi
    unfold generateSkeletonMpf
    have h1 : i < (lines.take (insertAt lines)).length := by omega
    rw [List.append_assoc]
    rw [List.getElem?_append, if_pos h1]
    rw [List.getElem?_take, if_pos hi]
  · unfold generateSkeletonMpf
    simp [List.length_append, htl, synthLines_length, List.length_drop]
    omega
  · unfold generateSkeletonMpf
    have hlen2 : (lines.take (insertAt lines) ++ synthLines cuts).length =
        insertAt lines + (7 * cuts.length + 2) := by
      simp [List.length_append, htl, synthLines_length]
    rw [← hlen2, List.drop_left]
  · intro i hi l hl
    have hlt : i < lines.length := by omega
    have := @List.not_of_lt_findIdx _ isEndLine lines i hi
    rw [List.getElem?_eq_getElem hlt] at hl
    cases hl
    exact this
  · intro hlt
    refine ⟨lines.get ⟨insertAt lines, hlt⟩, List.getElem?_eq_getElem hlt, ?_⟩
    exact List.findIdx_getElem

/-- C9 witness: concrete program with an `M30` terminator and one cut; the
prefix, length and suffix properties instantiated at `i = 0`. -/
theorem c9_generate_skeleton_frame_witness :
    (generateSkeletonMpf ["HKINI(0,9,9)", "M30"] [⟨1, (0, 0), (9, 0)⟩])[0]? =
      some "HKINI(0,9,9)" ∧
    (generateSkeletonMpf ["HKINI(0,9,9)", "M30"] [⟨1, (0, 0), (9, 0)⟩]).drop
        (1 + (7 * 1 + 2)) = ["M30"] ∧
    isEndLine "M30" = true := by
  have h := c9_generate_skeleton_frame ["HKINI(0,9,9)", "M30"]
    [⟨1, (0, 0), (9, 0)⟩]
  refine ⟨?_, ?_, by decide⟩
  · have := h.2.2.1 0 (by decide)
    rw [this]
    rfl
  · have h5 := h.2.2.2.2.1
    rw [show insertAt ["HKINI(0,9,9)", "M30"] = 1 by decide] at h5
    exact h5.trans (by rfl)


/-! ### Parser never-fails lemmas -/

theorem pyIdx_lt {α : Type} {l : List α} {i : Nat} (h : i < l.length) :
    pyIdx l i = .ok l[i] := by
  unfold pyIdx
  rw [List.getElem?_eq_getElem h]

theorem bind_exists_ok {α β : Type} {x : Except PyErr α}
    (hx : ∃ a, x = .ok a) {f : α → Except PyErr β}
    (hf : ∀ a, ∃ b, f a = .ok b) : ∃ b, (x >>= f) = .ok b := by
  obtain ⟨a, rfl⟩ := hx
  obtain ⟨b, hb⟩ := hf a
  exact ⟨b, hb⟩

theorem pyIdx_exists_ok {α : Type} {l : List α} {i : Nat} (h : i < l.length) :
    ∃ a, pyIdx l i = .ok a := ⟨l[i], pyIdx_lt h⟩

theorem argOr_ok (vals : List ℚ) (k : Nat) (d : ℚ) :
    ∃ a, argOr vals k d = .ok a := by
  unfold argOr
  by_cases h : k + 1 ≤ vals.length
  · rw [if_pos h]; exact pyIdx_exists_ok (by omega)
  · rw [if_neg h]; exact ⟨d, rfl⟩

theorem optArgInt_ok (vals : List ℚ) (k : Nat) :
    ∃ a, optArgInt vals k = .ok a := by
  unfold optArgInt
  by_cases h : k + 1 ≤ vals.length
  · rw [if_pos h]
    obtain ⟨a, ha⟩ := @pyIdx_exists_ok _ vals k (by omega)
    rw [ha]
    exact ⟨_, rfl⟩
  · rw [if_neg h]; exact ⟨none, rfl⟩

theorem ctypeArg_ok (vals : List ℚ) : ∃ a, ctypeArg vals = .ok a := by
  unfold ctypeArg
  by_cases h : 1 ≤ vals.length
  · rw [if_pos h]
    obtain ⟨a, ha⟩ := @pyIdx_exists_ok _ vals 0 (by omega)
    rw [ha]
    exact ⟨_, rfl⟩
  · rw [if_neg h]; exact ⟨0, rfl⟩

theorem hkiniStep_ok (s : ParseState) (u : List Char) :
    ∃ s', hkiniStep s u = .ok s' := by
  unfold hkiniStep
  dsimp only
  by_cases h3 : 3 ≤ (extractCallFloats u "HKINI".toList).length
  · rw [if_pos h3]
    apply bind_exists_ok (pyIdx_exists_ok (by omega))
    intro w
    apply bind_exists_ok (pyIdx_exists_ok (by omega))
    intro h
    exact ⟨_, rfl⟩
  · rw [if_neg h3]
    exact ⟨s, rfl⟩

theorem hkostStep_ok (s : ParseState) (u : List Char) :
    ∃ s', hkostStep s u = .ok s' := by
  unfold hkostStep
  dsimp only
  apply bind_exists_ok (optArgInt_ok _ _)
  intro pid
  apply bind_exists_ok (optArgInt_ok _ _)
  intro tech
  apply bind_exists_ok (argOr_ok _ _ _)
  intro ox
  apply bind_exists_ok (argOr_ok _ _ _)
  intro oy
  exact ⟨_, rfl⟩

theorem hkstrStep_ok (s : ParseState) (u : List Char) :
    ∃ s', hkstrStep s u = .ok s' := by
  unfold hkstrStep
  dsimp only
  apply bind_exists_ok (argOr_ok _ _ _)
  intro x'
  apply bind_exists_ok (argOr_ok _ _ _)
  intro y'
  apply bind_exists_ok (ctypeArg_ok _)
  intro ctype
  exact ⟨_, rfl⟩

theorem parseStepU_ok (s : ParseState) (u : List Char) :
    ∃ s', parseStepU s u = .ok s' := by
  unfold parseStepU
  split
  · exact hkiniStep_ok s u
  split
  · exact hkostStep_ok s u
  split
  · exact hkstrStep_ok s u
  split
  · exact ⟨_, rfl⟩
  split
  · exact ⟨_, rfl⟩
  split
  · exact ⟨_, rfl⟩
  split
  · exact ⟨s, rfl⟩
  split
  · exact ⟨s, rfl⟩
  split
  · exact ⟨_, rfl⟩
  split
  · exact ⟨_, rfl⟩
  · exact ⟨s, rfl⟩

theorem parseStep_ok (s : ParseState) (raw : String) :
    ∃ s', parseStep s raw = .ok s' := by
  unfold parseStep
  split
  · exact ⟨s, rfl⟩
  · exact parseStepU_ok s _

theorem parseLines_ok (lines : List String) (s : ParseState) :
    ∃ s', lines.foldlM parseStep s = .ok s' := by
  induction lines generalizing s with
  | nil => exact ⟨s, rfl⟩
  | cons l t ih =>
    rw [List.foldlM_cons]
    obtain ⟨s1, h1⟩ := parseStep_ok s l
    rw [h1]
    exact ih s1

theorem g23Step_missing (s : ParseState) (u : List Char)
    (h : searchKey 'X' u = none ∨ searchKey 'Y' u = none ∨
         searchKey 'I' u = none ∨ searchKey 'J' u = none) :
    g23Step s u = s := by
  unfold g23Step
  cases hX : searchKey 'X' u with
  | none => rfl
  | some nx =>
    cases hY : searchKey 'Y' u with
    | none => rfl
    | some ny =>
      cases hI : searchKey 'I' u with
      | none => rfl
      | some iv =>
        cases hJ : searchKey 'J' u with
        | none => rfl
        | some jv => simp_all

theorem parseStepU_unrecognized (s : ParseState) (u : List Char)
    (h1 : "HKINI".toList.isPrefixOf u = false)
    (h2 : containsSub "HKOST(".toList u = false)
    (h3 : containsSub "HKSTR(".toList u = false)
    (h4 : containsSub "HKCUT".toList u = false)
    (h5 : containsSub "HKSTO".toList u = false)
    (h6 : containsSub "HKPED".toList u = false)
    (h7 : "WHEN".toList.isPrefixOf u = false)
    (h8 : "G1".toList.isPrefixOf u = false)
    (h9 : "G2".toList.isPrefixOf u = false)
    (h10 : "G3".toList.isPrefixOf u = false) :
    parseStepU s u = .ok s := by
  unfold parseStepU
  rw [if_neg (by rw [h1]; simp), if_neg (by rw [h2]; simp),
      if_neg (by rw [h3]; simp), if_neg (by rw [h4]; simp),
      if_neg (by rw [h5]; simp), if_neg (by rw [h6]; simp),
      if_neg (by rw [h7]; simp)]
  by_cases hc : ¬ s.cutOn ∨ s.currentContours = []
  · rw [if_pos hc]
  · rw [if_neg hc, if_neg (by rw [h8]; simp), if_neg (by rw [h9, h10]; simp)]

theorem parseStepU_g23_missing (s : ParseState) (u : List Char)
    (h1 : "HKINI".toList.isPrefixOf u = false)
    (h2 : containsSub "HKOST(".toList u = false)
    (h3 : containsSub "HKSTR(".toList u = false)
    (h4 : containsSub "HKCUT".toList u = false)
    (h5 : containsSub "HKSTO".toList u = false)
    (h6 : containsSub "HKPED".toList u = false)
    (h7 : "WHEN".toList.isPrefixOf u = false)
    (h8 : "G2".toList.isPrefixOf u = true ∨ "G3".toList.isPrefixOf u = true)
    (h9 : searchKey 'X' u = none ∨ searchKey 'Y' u = none ∨
          searchKey 'I' u = none ∨ searchKey 'J' u = none) :
    parseStepU s u = .ok s := by
  have hg1 : "G1".toList.isPrefixOf u = false := by
    rcases h8 with h | h
    · rw [List.isPrefixOf_iff_prefix] at h
      obtain ⟨t, rfl⟩ := h
      rfl
    · rw [List.isPrefixOf_iff_prefix] at h
      obtain ⟨t, rfl⟩ := h
      rfl
  unfold parseStepU
  rw [if_neg (by rw [h1]; simp), if_neg (by rw [h2]; simp),
      if_neg (by rw [h3]; simp), if_neg (by rw [h4]; simp),
      if_neg (by rw [h5]; simp), if_neg (by rw [h6]; simp),
      if_neg (by rw [h7]; simp)]
  by_cases hc : ¬ s.cutOn ∨ s.currentContours = []
  · rw [if_pos hc]
  · rw [if_neg hc, if_neg (by rw [hg1]; simp), if_pos h8,
        g23Step_missing s u h9]

/-! ### Claim C1 -/

/-- C1: for every input, the parser terminates and returns a `Program`
without raising — every Python list subscript it performs is guarded, so the
`Except` computation always ends in `ok` — and both an unrecognized line and
a `G2`/`G3` motion line missing one of its required `X`/`Y`/`I`/`J`
arguments leave the parser state unchanged (the line is skipped and parsing
continues). -/
theorem c1_parse_total_and_skips :
    (∀ lines : List String, ∃ p, parseHkMpf lines = .ok p) ∧
    (∀ (s : ParseState) (u : List Char),
      "HKINI".toList.isPrefixOf u = false →
      containsSub "HKOST(".toList u = false →
      containsSub "HKSTR(".toList u = false →
      containsSub "HKCUT".toList u = false →
      containsSub "HKSTO".toList u = false →
      containsSub "HKPED".toList u = false →
      "WHEN".toList.isPrefixOf u = false →
      "G1".toList.isPrefixOf u = false →
      "G2".toList.isPrefixOf u = false →
      "G3".toList.isPrefixOf u = false →
      parseStepU s u = .ok s) ∧
    (∀ (s : ParseState) (u : List Char),
      "HKINI".toList.isPrefixOf u = false →
      containsSub "HKOST(".toList u = false →
      containsSub "HKSTR(".toList u = false →
      containsSub "HKCUT".toList u = false →
      containsSub "HKSTO".toList u = false →
      containsSub "HKPED".toList u = false →
      "WHEN".toList.isPrefixOf u = false →
      ("G2".toList.isPrefixOf u = true ∨ "G3".toList.isPrefixOf u = true) →
      (searchKey 'X' u = none ∨ searchKey 'Y' u = none ∨
       searchKey 'I' u = none ∨ searchKey 'J' u = none) →
      parseStepU s u = .ok s) := by
  refine ⟨?_, parseStepU_unrecognized, parseStepU_g23_missing⟩
  intro lines
  unfold parseHkMpf parseLines
  obtain ⟨s', hs⟩ := parseLines_ok lines {}
  rw [hs]
  exact ⟨_, rfl⟩

/-- C1 witness: a program containing an unrecognized line and a `G2` line
with no `J` argument parses successfully, and both lines leave the initial
parser state untouched. -/
theorem c1_parse_total_and_skips_witness :
    (∃ p, parseHkMpf ["HKINI(0,48,96)", "BOGUS LINE", "G2 X1 Y2 I3"] =
      .ok p) ∧
    parseStepU {} (upperChars (pyStrip "BOGUS LINE".toList)) = .ok {} ∧
    parseStepU {} (upperChars (pyStrip "G2 X1 Y2 I3".toList)) = .ok {} :=
  ⟨c1_parse_total_and_skips.1 _,
   c1_parse_total_and_skips.2.1 {} _ (by decide) (by decide) (by decide)
     (by decide) (by decide) (by decide) (by decide) (by decide) (by decide)
     (by decide),
   c1_parse_total_and_skips.2.2 {} _ (by decide) (by decide) (by decide)
     (by decide) (by decide) (by decide) (by decide) (Or.inl (by decide))
     (Or.inr (Or.inr (Or.inr (by decide))))⟩



/-! ### Sheet-dimension lemmas -/

theorem bind_ok_inv {α β : Type} {x : Except PyErr α} {f : α → Except PyErr β}
    {b : β} (h : (x >>= f) = .ok b) : ∃ a, x = .ok a ∧ f a = .ok b := by
  cases x with
  | error e => exact absurd h (by simp [Bind.bind, Except.bind])
  | ok a => exact ⟨a, rfl, h⟩

theorem hkostStep_sheet {s : ParseState} {u : List Char} {s' : ParseState}
    (h : hkostStep s u = .ok s') :
    s'.sheetW = s.sheetW ∧ s'.sheetH = s.sheetH := by
  unfold hkostStep at h
  dsimp only at h
  obtain ⟨pid, _, h⟩ := bind_ok_inv h
  obtain ⟨tech, _, h⟩ := bind_ok_inv h
  obtain ⟨ox, _, h⟩ := bind_ok_inv h
  obtain ⟨oy, _, h⟩ := bind_ok_inv h
  simp only [pure, Except.pure, Except.ok.injEq] at h
  subst h
  exact ⟨rfl, rfl⟩

theorem hkstrStep_sheet {s : ParseState} {u : List Char} {s' : ParseState}
    (h : hkstrStep s u = .ok s') :
    s'.sheetW = s.sheetW ∧ s'.sheetH = s.sheetH := by
  unfold hkstrStep at h
  dsimp only at h
  obtain ⟨x', _, h⟩ := bind_ok_inv h
  obtain ⟨y', _, h⟩ := bind_ok_inv h
  obtain ⟨ctype, _, h⟩ := bind_ok_inv h
  simp only [pure, Except.pure, Except.ok.injEq] at h
  subst h
  unfold hkstrPlacements
  dsimp only
  split
  · exact ⟨rfl, rfl⟩
  · split <;> exact ⟨rfl, rfl⟩

theorem g23Step_sheet (s : ParseState) (u : List Char) :
    (g23Step s u).sheetW = s.sheetW ∧ (g23Step s u).sheetH = s.sheetH := by
  unfold g23Step
  cases searchKey 'X' u <;> cases searchKey 'Y' u <;>
    cases searchKey 'I' u <;> cases searchKey 'J' u <;> exact ⟨rfl, rfl⟩

theorem hkiniStep_sheet {s : ParseState} {u : List Char} {s' : ParseState}
    (h : hkiniStep s u = .ok s') :
    (s'.sheetW, s'.sheetH) =
      (let vals := extractCallFloats u "HKINI".toList
       if 3 ≤ vals.length then (some (vals.getD 1 0), some (vals.getD 2 0))
       else (s.sheetW, s.sheetH)) := by
  unfold hkiniStep at h
  dsimp only at h ⊢
  by_cases h3 : 3 ≤ (extractCallFloats u "HKINI".toList).length
  · rw [if_pos h3] at h
    rw [if_pos h3]
    rw [pyIdx_lt (by omega)] at h
    obtain ⟨w, hw, h⟩ := bind_ok_inv h
    rw [pyIdx_lt (by omega)] at h
    obtain ⟨hh, hh2, h⟩ := bind_ok_inv h
    simp only [Except.ok.injEq] at hw hh2
    simp only [pure, Except.pure, Except.ok.injEq] at h
    subst h
    simp only [← hw, ← hh2]
    rw [List.getD_eq_getElem _ _ (by omega), List.getD_eq_getElem _ _ (by omega)]
  · rw [if_neg h3] at h
    rw [if_neg h3]
    simp only [Except.ok.injEq] at h
    subst h
    rfl

theorem parseStep_sheet {s : ParseState} {raw : String} {s' : ParseState}
    (h : parseStep s raw = .ok s') :
    (s'.sheetW, s'.sheetH) = hkiniUpdate (s.sheetW, s.sheetH) raw := by
  unfold parseStep at h
  unfold hkiniUpdate
  dsimp only
  by_cases hempty : pyStrip raw.toList = []
  · rw [if_pos hempty] at h
    rw [if_pos hempty]
    simp only [Except.ok.injEq] at h
    subst h
    rfl
  · rw [if_neg hempty] at h
    rw [if_neg hempty]
    unfold parseStepU at h
    by_cases hini : "HKINI".toList.isPrefixOf (upperChars (pyStrip raw.toList)) = true
    · rw [if_pos hini] at h
      rw [if_pos hini]
      exact hkiniStep_sheet h
    · rw [if_neg hini] at h
      rw [if_neg hini]
      split at h
      · have := hkostStep_sheet h
        rw [this.1, this.2]
      split at h
      · have := hkstrStep_sheet h
        rw [this.1, this.2]
      split at h
      · simp only [Except.ok.injEq] at h; subst h; rfl
      split at h
      · simp only [Except.ok.injEq] at h; subst h; rfl
      split at h
      · simp only [Except.ok.injEq] at h; subst h; rfl
      split at h
      · simp only [Except.ok.injEq] at h; subst h; rfl
      split at h
      · simp only [Except.ok.injEq] at h; subst h; rfl
      split at h
      · simp only [Except.ok.injEq] at h; subst h; rfl
      split at h
      · simp only [Except.ok.injEq] at h
        subst h
        have := g23Step_sheet s (upperChars (pyStrip raw.toList))
        rw [this.1, this.2]
      · simp only [Except.ok.injEq] at h
        subst h
        rfl

theorem parseLines_sheet (lines : List String) (s : ParseState)
    {s' : ParseState} (h : lines.foldlM parseStep s = .ok s') :
    (s'.sheetW, s'.sheetH) =
      lines.foldl hkiniUpdate (s.sheetW, s.sheetH) := by
  induction lines generalizing s with
  | nil =>
    simp only [List.foldlM_nil, pure, Except.pure, Except.ok.injEq] at h
    subst h
    rfl
  | cons l t ih =>
    rw [List.foldlM_cons] at h
    obtain ⟨s1, h1, h2⟩ := bind_ok_inv h
    rw [List.foldl_cons]
    rw [← parseStep_sheet h1]
    exact ih s1 h2

/-! ### Claim C5 -/

/-- C5 counterexample: a second `HKINI` line overwrites the already-set
sheet — parsing `HKINI(0,5,5)` then `HKINI(0,7,8)` yields sheet `(7, 8)`,
not the first line's `(5, 5)` that the claim's "set once" behaviour would
require. -/
theorem c5_sheet_set_once_counterexample :
    (parseHkMpf ["HKINI(0,5,5)", "HKINI(0,7,8)"]).map Program.sheet =
      .ok ((7 : ℚ), (8 : ℚ)) ∧
    ((7 : ℚ), (8 : ℚ)) ≠ ((5 : ℚ), (5 : ℚ)) :=
  ⟨by with_unfolding_all rfl,
   by
    intro h
    rw [Prod.mk.injEq] at h
    exact absurd h.1 (by norm_num)⟩

/-- C5 (amended): the sheet dimensions come from `HKINI` lines with at least
3 numeric arguments, as `width = args[1]`, `height = args[2]`; they are zero
when no such line appears, and a *later* qualifying `HKINI` line overwrites
the earlier value, so the last one wins (the fold of `hkiniUpdate` over the
lines). -/
theorem c5_sheet_last_hkini_wins (lines : List String) :
    ∃ p, parseHkMpf lines = .ok p ∧
      p.sheet =
        ((lines.foldl hkiniUpdate (none, none)).1.getD 0,
         (lines.foldl hkiniUpdate (none, none)).2.getD 0) := by
  obtain ⟨s', hs⟩ := parseLines_ok lines {}
  refine ⟨finishProgram s', ?_, ?_⟩
  · unfold parseHkMpf parseLines
    rw [hs]
    rfl
  · have hsheet := parseLines_sheet lines {} hs
    unfold finishProgram
    dsimp only
    rw [Prod.mk.injEq] at hsheet
    rw [hsheet.1, hsheet.2]



/-! ### Placement-table lemmas (claim C3) -/

theorem find?_key_map (m : List (ℤ × List Nat)) (k k' : ℤ) (idx : Nat) :
    (m.map (fun p => if p.1 = k then (p.1, p.2 ++ [idx]) else p)).find?
        (fun p => p.1 = k') =
      (m.find? (fun p => p.1 = k')).map
        (fun p => if p.1 = k then (p.1, p.2 ++ [idx]) else p) := by
  rw [List.find?_map]
  have hpred : ((fun p : ℤ × List Nat => decide (p.1 = k')) ∘
      (fun p : ℤ × List Nat => if p.1 = k then (p.1, p.2 ++ [idx]) else p)) =
      (fun p : ℤ × List Nat => decide (p.1 = k')) := by
    funext p
    by_cases hp : p.1 = k <;> simp [Function.comp, hp]
  rw [hpred]

theorem lookupStarts_registerStart_self (m : List (ℤ × List Nat)) (k : ℤ)
    (idx : Nat) :
    lookupStarts (registerStart m k idx) k = lookupStarts m k ++ [idx] := by
  unfold registerStart lookupStarts
  by_cases hany : m.any (fun p => p.1 = k)
  · rw [if_pos hany]
    rw [find?_key_map]
    obtain ⟨p, hp, hpk⟩ := List.any_eq_true.mp hany
    cases hfind : m.find? (fun p => p.1 = k) with
    | none =>
      rw [List.find?_eq_none] at hfind
      exact absurd hpk (by simpa using hfind p hp)
    | some q =>
      have hq : q.1 = k := by simpa using List.find?_some hfind
      simp [hq]
  · rw [if_neg hany]
    rw [List.find?_append]
    have hnone : m.find? (fun p => p.1 = k) = none := by
      rw [List.find?_eq_none]
      intro x hx hpx
      exact hany (List.any_eq_true.mpr ⟨x, hx, hpx⟩)
    rw [hnone]
    simp [List.find?_cons]

theorem lookupStarts_registerStart_other (m : List (ℤ × List Nat)) (k k' : ℤ)
    (idx : Nat) (h : k' ≠ k) :
    lookupStarts (registerStart m k idx) k' = lookupStarts m k' := by
  unfold registerStart lookupStarts
  by_cases hany : m.any (fun p => p.1 = k)
  · rw [if_pos hany]
    rw [find?_key_map]
    cases hfind : m.find? (fun p => p.1 = k') with
    | none => rfl
    | some q =>
      have hq : q.1 = k' := by simpa using List.find?_some hfind
      have hqk : ¬ q.1 = k := by rw [hq]; exact h
      simp [hqk]
  · rw [if_neg hany]
    rw [List.find?_append]
    cases hfind : m.find? (fun p => p.1 = k') with
    | none =>
      simp [List.find?_cons, show ¬ ((k : ℤ) = k') from fun hh => h hh.symm]
    | some q => simp

theorem optArgInt_eq (vals : List ℚ) (k : Nat) :
    optArgInt vals k =
      .ok (if k + 1 ≤ vals.length then some (pyInt (vals.getD k 0)) else none) := by
  unfold optArgInt
  by_cases h : k + 1 ≤ vals.length
  · rw [if_pos h, if_pos h, pyIdx_lt (by omega)]
    rw [List.getD_eq_getElem _ _ (by omega)]
    rfl
  · rw [if_neg h, if_neg h]
    rfl

theorem hkostStep_registers {s : ParseState} {u : List Char} {s' : ParseState}
    (h : hkostStep s u = .ok s') :
    s'.parts.length = s.parts.length + 1 ∧
    s'.currentPart = some s.parts.length ∧
    (s'.parts.getD s.parts.length dummyPart).programId =
      (if 4 ≤ (extractCallFloats u "HKOST".toList).length then
        some (pyInt ((extractCallFloats u "HKOST".toList).getD 3 0))
       else none) ∧
    s'.partStarts =
      (match (if 4 ≤ (extractCallFloats u "HKOST".toList).length then
          some (pyInt ((extractCallFloats u "HKOST".toList).getD 3 0))
        else none) with
       | some kk => registerStart s.partStarts kk s.parts.length
       | none => s.partStarts) ∧
    (∀ i, i < s.parts.length →
      s'.parts.getD i dummyPart = s.parts.getD i dummyPart) := by
  unfold hkostStep at h
  dsimp only at h
  rw [optArgInt_eq] at h
  obtain ⟨pid, hpid, h⟩ := bind_ok_inv h
  rw [optArgInt_eq] at h
  obtain ⟨tech, htech, h⟩ := bind_ok_inv h
  obtain ⟨ox, hox, h⟩ := bind_ok_inv h
  obtain ⟨oy, hoy, h⟩ := bind_ok_inv h
  simp only [pure, Except.pure, Except.ok.injEq] at h
  simp only [Except.ok.injEq] at hpid htech
  subst h
  subst hpid
  refine ⟨by simp, rfl, ?_, rfl, ?_⟩
  · simp only [List.getD_eq_getElem?_getD]
    rw [List.getElem?_append_right (by omega)]
    simp
  · intro i hi
    simp only [List.getD_eq_getElem?_getD]
    rw [List.getElem?_append, if_pos (by omega)]

theorem hkstrPlacements_found {s : ParseState} {u : List Char} {ps : List Nat}
    (hps : lookupStarts s.partStarts (lineKey u) = ps) (hne : ps ≠ []) :
    hkstrPlacements s u = (s, ps) := by
  unfold hkstrPlacements
  dsimp only
  rw [hps, if_pos hne]

theorem hkstrPlacements_current {s : ParseState} {u : List Char} {cp : Nat}
    (hps : lookupStarts s.partStarts (lineKey u) = [])
    (hcp : s.currentPart = some cp) :
    hkstrPlacements s u = (s, [cp]) := by
  unfold hkstrPlacements
  dsimp only
  rw [hps, if_neg (by simp), hcp]

theorem hkstrPlacements_anon {s : ParseState} {u : List Char}
    (hps : lookupStarts s.partStarts (lineKey u) = [])
    (hcp : s.currentPart = none) :
    hkstrPlacements s u =
      ({ s with parts := s.parts ++ [{ : PartM }],
                currentPart := some s.parts.length },
       [s.parts.length]) := by
  unfold hkstrPlacements
  dsimp only
  rw [hps, if_neg (by simp), hcp]

theorem hkstrStep_inv {s : ParseState} {u : List Char} {s' : ParseState}
    (h : hkstrStep s u = .ok s') :
    ∃ (x' y' : ℚ) (ctype : ℤ),
      s' = { (hkstrPlacements s u).1 with
        x := x', y := y',
        parts := (openContours (hkstrPlacements s u).1.parts
          { kind := if ctype = 0 then .outer else .hole,
            hkstr := extractCallFloats u "HKSTR".toList, segments := [] }
          (hkstrPlacements s u).2).1,
        currentContours := (openContours (hkstrPlacements s u).1.parts
          { kind := if ctype = 0 then .outer else .hole,
            hkstr := extractCallFloats u "HKSTR".toList, segments := [] }
          (hkstrPlacements s u).2).2 } := by
  unfold hkstrStep at h
  dsimp only at h
  obtain ⟨x', hx, h⟩ := bind_ok_inv h
  obtain ⟨y', hy, h⟩ := bind_ok_inv h
  obtain ⟨ctype, hct, h⟩ := bind_ok_inv h
  simp only [pure, Except.pure, Except.ok.injEq] at h
  exact ⟨x', y', ctype, h.symm⟩

theorem openContours_spec (c0 : ContourM) (idxs : List Nat) (ps : List PartM)
    (hvalid : ∀ i ∈ idxs, i < ps.length) (hnodup : idxs.Nodup) :
    (openContours ps c0 idxs).1.length = ps.length ∧
    (∀ i ∈ idxs, (openContours ps c0 idxs).1.getD i dummyPart =
      { ps.getD i dummyPart with
        contours := (ps.getD i dummyPart).contours ++ [c0] }) ∧
    (∀ i, i ∉ idxs →
      (openContours ps c0 idxs).1.getD i dummyPart = ps.getD i dummyPart) ∧
    (openContours ps c0 idxs).2 = idxs.map (fun i =>
      ⟨i, (ps.getD i dummyPart).contours.length,
        (ps.getD i dummyPart).offset⟩) := by
  induction idxs generalizing ps with
  | nil => exact ⟨rfl, by simp, fun i _ => rfl, rfl⟩
  | cons i rest ih =>
    have hi : i < ps.length := hvalid i (by simp)
    have hinotin : i ∉ rest := (List.nodup_cons.mp hnodup).1
    have hrestnd : rest.Nodup := (List.nodup_cons.mp hnodup).2
    set p := ps[i] with hp
    set ps' := ps.set i { p with contours := p.contours ++ [c0] } with hps'
    have hrestvalid : ∀ j ∈ rest, j < ps'.length := by
      intro j hj
      rw [hps', List.length_set]
      exact hvalid j (by simp [hj])
    have ihr := ih ps' hrestvalid hrestnd
    have hunf : openContours ps c0 (i :: rest) =
        ((openContours ps' c0 rest).1,
         ⟨i, p.contours.length, p.offset⟩ :: (openContours ps' c0 rest).2) := by
      rw [openContours, List.getElem?_eq_getElem hi]
    have hgetD_i : ps.getD i dummyPart = p := by
      rw [List.getD_eq_getElem?_getD, List.getElem?_eq_getElem hi]
      rfl
    have hps'_getD_ne : ∀ j, j ≠ i → ps'.getD j dummyPart = ps.getD j dummyPart := by
      intro j hj
      rw [hps', List.getD_eq_getElem?_getD, List.getElem?_set_ne (by omega),
        ← List.getD_eq_getElem?_getD]
    have hps'_getD_i : ps'.getD i dummyPart =
        { p with contours := p.contours ++ [c0] } := by
      rw [hps', List.getD_eq_getElem?_getD, List.getElem?_set_self hi]
      rfl
    refine ⟨?_, ?_, ?_, ?_⟩
    · rw [hunf]
      dsimp only
      rw [ihr.1, hps', List.length_set]
    · intro j hj
      rw [hunf]
      dsimp only
      rcases List.mem_cons.mp hj with rfl | hjr
      · rw [ihr.2.2.1 j hinotin, hps'_getD_i, hgetD_i]
      · have hji : j ≠ i := fun h => hinotin (h ▸ hjr)
        rw [ihr.2.1 j hjr, hps'_getD_ne j hji]
    · intro j hj
      have hji : j ≠ i := fun h => hj (h ▸ List.mem_cons_self i rest)
      have hjr : j ∉ rest := fun h => hj (List.mem_cons_of_mem i h)
      rw [hunf]
      dsimp only
      rw [ihr.2.2.1 j hjr, hps'_getD_ne j hji]
    · rw [hunf]
      dsimp only
      rw [ihr.2.2.2]
      rw [List.map_cons]  -- goal: cons = cons of maps over ps
      congr 1
      · rw [hgetD_i]
      · apply List.map_congr_left
        intro j hjr
        have hji : j ≠ i := fun h => hinotin (h ▸ hjr)
        rw [hps'_getD_ne j hji]

theorem hkstrStep_replicates {s : ParseState} {u : List Char}
    {s' : ParseState} {ps : List Nat}
    (hps : lookupStarts s.partStarts (lineKey u) = ps) (hne : ps ≠ [])
    (hvalid : ∀ i ∈ ps, i < s.parts.length) (hnodup : ps.Nodup)
    (h : hkstrStep s u = .ok s') :
    s'.parts.length = s.parts.length ∧
    (∀ i ∈ ps, (s'.parts.getD i dummyPart).contours.length =
      (s.parts.getD i dummyPart).contours.length + 1) ∧
    (∀ i, i ∉ ps → s'.parts.getD i dummyPart = s.parts.getD i dummyPart) ∧
    s'.currentContours = ps.map (fun i =>
      (⟨i, (s.parts.getD i dummyPart).contours.length,
        (s.parts.getD i dummyPart).offset⟩ : ActiveRef)) ∧
    s'.currentPart = s.currentPart := by
  obtain ⟨x', y', ctype, rfl⟩ := hkstrStep_inv h
  rw [hkstrPlacements_found hps hne]
  dsimp only
  have spec := openContours_spec
    { kind := if ctype = 0 then .outer else .hole,
      hkstr := extractCallFloats u "HKSTR".toList, segments := [] }
    ps s.parts hvalid hnodup
  refine ⟨spec.1, ?_, spec.2.2.1, spec.2.2.2, rfl⟩
  intro i hi
  rw [spec.2.1 i hi]
  simp

theorem hkstrStep_current {s : ParseState} {u : List Char} {s' : ParseState}
    {cp : Nat}
    (hps : lookupStarts s.partStarts (lineKey u) = [])
    (hcp : s.currentPart = some cp) (hlt : cp < s.parts.length)
    (h : hkstrStep s u = .ok s') :
    s'.parts.length = s.parts.length ∧
    (s'.parts.getD cp dummyPart).contours.length =
      (s.parts.getD cp dummyPart).contours.length + 1 ∧
    (∀ i, i ≠ cp → s'.parts.getD i dummyPart = s.parts.getD i dummyPart) ∧
    s'.currentContours =
      [⟨cp, (s.parts.getD cp dummyPart).contours.length,
        (s.parts.getD cp dummyPart).offset⟩] ∧
    s'.currentPart = some cp := by
  obtain ⟨x', y', ctype, rfl⟩ := hkstrStep_inv h
  rw [hkstrPlacements_current hps hcp]
  dsimp only
  have spec := openContours_spec
    { kind := if ctype = 0 then .outer else .hole,
      hkstr := extractCallFloats u "HKSTR".toList, segments := [] }
    [cp] s.parts (by simpa using hlt) (by simp)
  refine ⟨spec.1, ?_, ?_, ?_, hcp⟩
  · rw [spec.2.1 cp (by simp)]
    simp
  · intro i hi
    exact spec.2.2.1 i (by simp [hi])
  · rw [spec.2.2.2]
    simp

theorem hkstrStep_anon {s : ParseState} {u : List Char} {s' : ParseState}
    (hps : lookupStarts s.partStarts (lineKey u) = [])
    (hcp : s.currentPart = none)
    (h : hkstrStep s u = .ok s') :
    s'.parts.length = s.parts.length + 1 ∧
    (s'.parts.getD s.parts.length dummyPart).contours.length = 1 ∧
    (s'.parts.getD s.parts.length dummyPart).programId = none ∧
    (∀ i, i < s.parts.length →
      s'.parts.getD i dummyPart = s.parts.getD i dummyPart) ∧
    s'.currentContours = [⟨s.parts.length, 0, (0, 0)⟩] ∧
    s'.currentPart = some s.parts.length := by
  obtain ⟨x', y', ctype, rfl⟩ := hkstrStep_inv h
  rw [hkstrPlacements_anon hps hcp]
  dsimp only
  have hgetlen : ((s.parts ++ [{ : PartM }]).getD s.parts.length dummyPart) =
      ({ : PartM }) := by
    simp only [List.getD_eq_getElem?_getD]
    rw [List.getElem?_append_right (by omega)]
    simp
  have hgetlt : ∀ i, i < s.parts.length →
      ((s.parts ++ [{ : PartM }]).getD i dummyPart) =
        s.parts.getD i dummyPart := by
    intro i hi
    simp only [List.getD_eq_getElem?_getD]
    rw [List.getElem?_append, if_pos (by omega)]
  have spec := openContours_spec
    { kind := if ctype = 0 then .outer else .hole,
      hkstr := extractCallFloats u "HKSTR".toList, segments := [] }
    [s.parts.length] (s.parts ++ [{ : PartM }])
    (by simp) (by simp)
  refine ⟨?_, ?_, ?_, ?_, ?_, rfl⟩
  · rw [spec.1]
    simp
  · rw [spec.2.1 s.parts.length (by simp), hgetlen]
    rfl
  · rw [spec.2.1 s.parts.length (by simp), hgetlen]
  · intro i hi
    rw [spec.2.2.1 i (by simp; omega), hgetlt i hi]
  · rw [spec.2.2.2]
    rw [List.map_singleton, hgetlen]
    rfl

/-- C3 counterexample: the spec says an `HKSTR` line whose leading `N<number>`
token equals a registered `program_id` opens a contour in every part
registered under that id.  For `program_id = 0` this fails: the code looks up
`part_starts.get(line_no or -1)`, and Python's `or` turns the line number `0`
into `-1`, so the lookup misses.  Two parts registered under id 0 receive no
contour from an `N0 HKSTR` line; only the currently open part gets one. -/
theorem c3_zero_program_id_counterexample :
    lineKey (upperChars (pyStrip "N0 HKSTR(0,0,5,5)".toList)) = -1 ∧
    (parseHkMpf ["HKOST(0,0,0,0,1)", "HKOST(1,1,0,0,1)", "N0 HKSTR(0,0,5,5)",
        "HKCUT(0)", "G1 X6", "HKSTO(0)"]).map
      (fun p => p.parts.map (fun q => (q.programId, q.contours.length)))
      = .ok [(some 0, 0), (some 0, 1)] := by
  constructor
  · with_unfolding_all rfl
  · with_unfolding_all rfl

/-- C3 (amended): an `HKOST` line with a numeric fourth argument appends a
part whose `program_id` is that integer and registers its index in the
placement table under that id (other keys unchanged).  A later `HKSTR` line
is keyed by `lineKey`: its leading `N<number>` when that number is nonzero,
and `-1` otherwise (no `N` token, or `N0`, via Python's `line_no or -1`).
When the key has registered parts, one new contour is opened in every such
part and the active references record each part's offset; when the lookup
misses but a part is open, exactly one contour is opened in the current part;
when no part is open, a fresh anonymous part is appended with one contour. -/
theorem c3_hkstr_placement :
    (∀ (s : ParseState) (u : List Char) (s' : ParseState) (k : ℤ),
      hkostStep s u = .ok s' →
      (if 4 ≤ (extractCallFloats u "HKOST".toList).length
        then some (pyInt ((extractCallFloats u "HKOST".toList).getD 3 0))
        else none) = some k →
      s'.parts.length = s.parts.length + 1 ∧
      (s'.parts.getD s.parts.length dummyPart).programId = some k ∧
      lookupStarts s'.partStarts k =
        lookupStarts s.partStarts k ++ [s.parts.length] ∧
      (∀ k', k' ≠ k →
        lookupStarts s'.partStarts k' = lookupStarts s.partStarts k')) ∧
    (∀ (s : ParseState) (u : List Char) (s' : ParseState) (ps : List Nat),
      lookupStarts s.partStarts (lineKey u) = ps → ps ≠ [] →
      (∀ i ∈ ps, i < s.parts.length) → ps.Nodup →
      hkstrStep s u = .ok s' →
      s'.parts.length = s.parts.length ∧
      (∀ i ∈ ps, (s'.parts.getD i dummyPart).contours.length =
        (s.parts.getD i dummyPart).contours.length + 1) ∧
      (∀ i, i ∉ ps → s'.parts.getD i dummyPart = s.parts.getD i dummyPart) ∧
      s'.currentContours = ps.map (fun i =>
        (⟨i, (s.parts.getD i dummyPart).contours.length,
          (s.parts.getD i dummyPart).offset⟩ : ActiveRef))) ∧
    (∀ (s : ParseState) (u : List Char) (s' : ParseState) (cp : Nat),
      lookupStarts s.partStarts (lineKey u) = [] →
      s.currentPart = some cp → cp < s.parts.length →
      hkstrStep s u = .ok s' →
      s'.parts.length = s.parts.length ∧
      (s'.parts.getD cp dummyPart).contours.length =
        (s.parts.getD cp dummyPart).contours.length + 1 ∧
      (∀ i, i ≠ cp →
        s'.parts.getD i dummyPart = s.parts.getD i dummyPart)) ∧
    (∀ (s : ParseState) (u : List Char) (s' : ParseState),
      lookupStarts s.partStarts (lineKey u) = [] → s.currentPart = none →
      hkstrStep s u = .ok s' →
      s'.parts.length = s.parts.length + 1 ∧
      (s'.parts.getD s.parts.length dummyPart).contours.length = 1 ∧
      (s'.parts.getD s.parts.length dummyPart).programId = none ∧
      (∀ i, i < s.parts.length →
        s'.parts.getD i dummyPart = s.parts.getD i dummyPart)) := by
  refine ⟨?_, ?_, ?_, ?_⟩
  · intro s u s' k h hk
    have reg := hkostStep_registers h
    refine ⟨reg.1, ?_, ?_, ?_⟩
    · rw [reg.2.2.1, hk]
    · rw [reg.2.2.2.1, hk]
      exact lookupStarts_registerStart_self s.partStarts k s.parts.length
    · intro k' hk'
      rw [reg.2.2.2.1, hk]
      exact lookupStarts_registerStart_other s.partStarts k k'
        s.parts.length hk'
  · intro s u s' ps hps hne hvalid hnodup h
    have r := hkstrStep_replicates hps hne hvalid hnodup h
    exact ⟨r.1, r.2.1, r.2.2.1, r.2.2.2.1⟩
  · intro s u s' cp hps hcp hlt h
    have r := hkstrStep_current hps hcp hlt h
    exact ⟨r.1, r.2.1, r.2.2.1⟩
  · intro s u s' hps hcp h
    have r := hkstrStep_anon hps hcp h
    exact ⟨r.1, r.2.1, r.2.2.1, r.2.2.2.1⟩

/-- C3 witness: the four placement scenarios at concrete states — registering
id 5, replication via `N5`, fallback to the open part, anonymous part. -/
theorem c3_hkstr_placement_witness :
    (hkostStep c3state0 c3uOst = .ok c3s1 ∧
     c3s1.parts.length = c3state0.parts.length + 1 ∧
     (c3s1.parts.getD c3state0.parts.length dummyPart).programId = some 5 ∧
     lookupStarts c3s1.partStarts 5 =
       lookupStarts c3state0.partStarts 5 ++ [c3state0.parts.length]) ∧
    (hkstrStep c3s1 c3uStrN5 = .ok c3s2 ∧
     ∀ i ∈ [0], (c3s2.parts.getD i dummyPart).contours.length =
       (c3s1.parts.getD i dummyPart).contours.length + 1) ∧
    (hkstrStep c3s1 c3uStrPlain = .ok c3s3 ∧
     (c3s3.parts.getD 0 dummyPart).contours.length =
       (c3s1.parts.getD 0 dummyPart).contours.length + 1) ∧
    (hkstrStep c3state0 c3uStrPlain = .ok c3s4 ∧
     c3s4.parts.length = c3state0.parts.length + 1 ∧
     (c3s4.parts.getD c3state0.parts.length dummyPart).contours.length = 1) := by
  have h1 : hkostStep c3state0 c3uOst = .ok c3s1 := by with_unfolding_all rfl
  have h2 : hkstrStep c3s1 c3uStrN5 = .ok c3s2 := by with_unfolding_all rfl
  have h3 : hkstrStep c3s1 c3uStrPlain = .ok c3s3 := by with_unfolding_all rfl
  have h4 : hkstrStep c3state0 c3uStrPlain = .ok c3s4 := by
    with_unfolding_all rfl
  have hlen1 : c3s1.parts.length = 1 := by with_unfolding_all rfl
  refine ⟨⟨h1, ?_⟩, ⟨h2, ?_⟩, ⟨h3, ?_⟩, ⟨h4, ?_⟩⟩
  · have r := c3_hkstr_placement.1 c3state0 c3uOst c3s1 5 h1
      (by with_unfolding_all rfl)
    exact ⟨r.1, r.2.1, r.2.2.1⟩
  · exact (c3_hkstr_placement.2.1 c3s1 c3uStrN5 c3s2 [0]
      (by with_unfolding_all rfl) (by decide)
      (fun i hi => by simp at hi; omega) (by decide) h2).2.1
  · exact (c3_hkstr_placement.2.2.1 c3s1 c3uStrPlain c3s3 0
      (by with_unfolding_all rfl) (by with_unfolding_all rfl)
      (by omega) h3).2.1
  · have r := c3_hkstr_placement.2.2.2 c3state0 c3uStrPlain c3s4
      (by with_unfolding_all rfl) (by with_unfolding_all rfl) h4
    exact ⟨r.1, r.2.1⟩


/-! ### Arc tessellation lemmas (claims C4 and C8)

`atan2_polar` evaluates the model's `atan2` on points given in polar form.
The `arc90` lemmas evaluate the quarter-circle `G2` arc from `(0,0)` to
`(-5,5)` with `i=0, j=5` (sweep exactly 90 degrees, fifteen 6-degree steps);
the `arcq` lemmas evaluate the eighth-circle `G2` arc from `(0,0)` to
`(-5,0)` with `i=0, j=5` (sweep 45 degrees). -/

theorem atan2_polar {r a : ℝ} (hr : 0 < r)
    (ha : a ∈ Set.Ioc (-Real.pi) Real.pi) :
    atan2 (r * Real.sin a) (r * Real.cos a) = a := by
  unfold atan2
  have hmk : (⟨r * Real.cos a, r * Real.sin a⟩ : ℂ)
      = (r : ℂ) * (Real.cos a + Real.sin a * Complex.I) := by
    rw [Complex.mk_eq_add_mul_I]
    push_cast
    ring
  rw [hmk, Complex.arg_real_mul _ hr, Complex.ofReal_cos, Complex.ofReal_sin,
    Complex.arg_cos_add_sin_mul_I ha]

theorem arc90_a0 : arcA0 ((0:ℝ), 0) 0 5 = -(Real.pi / 2) := by
  unfold arcA0 arcCenter atan2
  rw [Complex.arg_eq_neg_pi_div_two_iff]
  constructor <;> norm_num

theorem arc90_a1raw : arcA1raw ((0:ℝ), 0) ((-5:ℝ), 5) 0 5 = Real.pi := by
  unfold arcA1raw arcCenter atan2
  rw [Complex.arg_eq_pi_iff]
  constructor <;> norm_num

theorem arc90_total :
    arcTotal ((0:ℝ), 0) ((-5:ℝ), 5) 0 5 true = -(Real.pi / 2) := by
  unfold arcTotal arcA1
  rw [arc90_a0, arc90_a1raw]
  unfold normWinding
  have harg : (Real.pi - -(Real.pi / 2)) / (2 * Real.pi) = 3 / 4 := by
    field_simp
    ring
  rw [if_pos rfl, harg]
  have hceil : ⌈(3 / 4 : ℝ)⌉ = 1 :=
    Int.ceil_eq_iff.mpr ⟨by norm_num, by norm_num⟩
  rw [hceil, show (max (0:ℤ) 1 : ℤ) = 1 from by decide]
  push_cast
  ring

theorem arc90_arcN : arcN ((0:ℝ), 0) ((-5:ℝ), 5) 0 5 true = 16 := by
  unfold arcN
  rw [arc90_total]
  have h1 : |(-(Real.pi / 2))| = Real.pi / 2 := by
    rw [abs_neg, abs_of_nonneg (by positivity)]
  rw [h1]
  have h2 : Real.pi / 2 / (Real.pi / 30) = 15 := by
    field_simp
    ring
  rw [h2]
  norm_num

theorem arc90_specArcN : specArcN ((0:ℝ), 0) ((-5:ℝ), 5) 0 5 true = 15 := by
  unfold specArcN
  rw [arc90_total]
  have h1 : |(-(Real.pi / 2))| = Real.pi / 2 := by
    rw [abs_neg, abs_of_nonneg (by positivity)]
  rw [h1]
  have h2 : Real.pi / 2 / (Real.pi / 30) = 15 := by
    field_simp
    ring
  rw [h2]
  norm_num

/-- C4 counterexample: on the 90-degree clockwise arc from `(0,0)` to
`(-5,5)` with `i=0, j=5` the sweep is exactly `15 * 6` degrees; the code's
`int(|total|/6°) + 1` gives 16 steps while the spec's `ceil(|total|/6°)`
gives 15, so the claimed step count is wrong at exact multiples of 6
degrees. -/
theorem c4_arc_stepcount_counterexample :
    arcN ((0:ℝ), 0) ((-5:ℝ), 5) 0 5 true = 16 ∧
    specArcN ((0:ℝ), 0) ((-5:ℝ), 5) 0 5 true = 15 :=
  ⟨arc90_arcN, arc90_specArcN⟩

/-- C4 (amended): for every arc the tessellation emits exactly `n + 1`
points with `n = max(8, int(|total|/6°) + 1)` (so `n = ceil` only off exact
multiples of 6 degrees), sampled at equal angular increments of the sweep at
radius `|start - c| = sqrt(i^2 + j^2)` about `c = start + (i,j)`; the end
angle is the raw `atan2` angle shifted by a whole number of turns onto the
requested side of the start angle (at most one turn past it), exactly the
postcondition of the two winding loops. -/
theorem c4_arc_tessellation (start e : ℝ × ℝ) (i j : ℝ) (cw : Bool) :
    (arcPoints start e i j cw).length = arcN start e i j cw + 1 ∧
    8 ≤ arcN start e i j cw ∧
    (∃ m : ℤ, arcA1 start e i j cw =
      arcA1raw start e i j + 2 * Real.pi * m) ∧
    (cw = true →
      arcA1 start e i j cw ≤ arcA0 start i j ∧
      (arcA1raw start e i j ≤ arcA0 start i j →
        arcA1 start e i j cw = arcA1raw start e i j) ∧
      (arcA0 start i j < arcA1raw start e i j →
        arcA0 start i j - 2 * Real.pi < arcA1 start e i j cw)) ∧
    (cw = false →
      arcA0 start i j ≤ arcA1 start e i j cw ∧
      (arcA0 start i j ≤ arcA1raw start e i j →
        arcA1 start e i j cw = arcA1raw start e i j) ∧
      (arcA1raw start e i j < arcA0 start i j →
        arcA1 start e i j cw < arcA0 start i j + 2 * Real.pi)) ∧
    arcR start i j = Real.sqrt (i ^ 2 + j ^ 2) ∧
    (∀ k : ℕ, k ≤ arcN start e i j cw →
      (arcPoints start e i j cw).getD k (0, 0) =
        ((arcCenter start i j).1 + arcR start i j *
          Real.cos (arcA0 start i j +
            arcTotal start e i j cw * (k / arcN start e i j cw)),
         (arcCenter start i j).2 + arcR start i j *
          Real.sin (arcA0 start i j +
            arcTotal start e i j cw * (k / arcN start e i j cw)))) := by
  refine ⟨?_, le_max_left _ _, ?_, ?_, ?_, ?_, ?_⟩
  · simp only [arcPoints, List.length_map, List.length_range]
  · cases cw with
    | true =>
      refine ⟨-(max 0 ⌈(arcA1raw start e i j - arcA0 start i j) /
          (2 * Real.pi)⌉), ?_⟩
      unfold arcA1 normWinding
      rw [if_pos rfl]
      push_cast
      ring
    | false =>
      refine ⟨max 0 ⌈(arcA0 start i j - arcA1raw start e i j) /
          (2 * Real.pi)⌉, ?_⟩
      unfold arcA1 normWinding
      rw [if_neg (by simp)]
  · intro hcw
    subst hcw
    unfold arcA1
    rcases le_or_lt (arcA1raw start e i j) (arcA0 start i j) with hle | hlt
    · rw [normWinding_cw_fix hle]
      exact ⟨hle, fun _ => rfl, fun hlt' => absurd hlt' (not_lt.mpr hle)⟩
    · have hs := normWinding_cw_step hlt
      exact ⟨hs.1, fun hle' => absurd hlt (not_lt.mpr hle'), fun _ => hs.2⟩
  · intro hcw
    subst hcw
    unfold arcA1
    rcases le_or_lt (arcA0 start i j) (arcA1raw start e i j) with hle | hlt
    · rw [normWinding_ccw_fix hle]
      exact ⟨hle, fun _ => rfl, fun hlt' => absurd hlt' (not_lt.mpr hle)⟩
    · have hs := normWinding_ccw_step hlt
      exact ⟨hs.1, fun hle' => absurd hlt (not_lt.mpr hle'), fun _ => hs.2⟩
  · unfold arcR arcCenter
    congr 1
    ring
  · intro k hk
    have hk' : k < arcN start e i j cw + 1 := by omega
    simp only [arcPoints]
    rw [List.getD_eq_getElem?_getD, List.getElem?_map,
      List.getElem?_range hk']
    rfl

/-- C4 witness: the quarter-circle arc — point count, clockwise winding
bound, and the sample formula at `k = 0`. -/
theorem c4_arc_tessellation_witness :
    (arcPoints ((0:ℝ), 0) ((-5:ℝ), 5) 0 5 true).length =
      arcN ((0:ℝ), 0) ((-5:ℝ), 5) 0 5 true + 1 ∧
    arcA1 ((0:ℝ), 0) ((-5:ℝ), 5) 0 5 true ≤ arcA0 ((0:ℝ), 0) 0 5 ∧
    (arcPoints ((0:ℝ), 0) ((-5:ℝ), 5) 0 5 true).getD 0 (0, 0) =
      ((arcCenter ((0:ℝ), 0) 0 5).1 + arcR ((0:ℝ), 0) 0 5 *
        Real.cos (arcA0 ((0:ℝ), 0) 0 5 +
          arcTotal ((0:ℝ), 0) ((-5:ℝ), 5) 0 5 true *
            (((0:ℕ) : ℝ) / arcN ((0:ℝ), 0) ((-5:ℝ), 5) 0 5 true)),
       (arcCenter ((0:ℝ), 0) 0 5).2 + arcR ((0:ℝ), 0) 0 5 *
        Real.sin (arcA0 ((0:ℝ), 0) 0 5 +
          arcTotal ((0:ℝ), 0) ((-5:ℝ), 5) 0 5 true *
            (((0:ℕ) : ℝ) / arcN ((0:ℝ), 0) ((-5:ℝ), 5) 0 5 true))) :=
  ⟨(c4_arc_tessellation ((0:ℝ), 0) ((-5:ℝ), 5) 0 5 true).1,
   ((c4_arc_tessellation ((0:ℝ), 0) ((-5:ℝ), 5) 0 5 true).2.2.2.1 rfl).1,
   (c4_arc_tessellation ((0:ℝ), 0) ((-5:ℝ), 5) 0 5 true).2.2.2.2.2.2 0
     (Nat.zero_le _)⟩

theorem arcq_a1raw :
    arcA1raw ((0:ℝ), 0) ((-5:ℝ), 0) 0 5 = -(3 * Real.pi / 4) := by
  have hcos : Real.cos (-(3 * Real.pi / 4)) = -(Real.sqrt 2 / 2) := by
    rw [Real.cos_neg, show (3 * Real.pi / 4) = Real.pi - Real.pi / 4 from by
      ring, Real.cos_pi_sub, Real.cos_pi_div_four]
  have hsin : Real.sin (-(3 * Real.pi / 4)) = -(Real.sqrt 2 / 2) := by
    rw [Real.sin_neg, show (3 * Real.pi / 4) = Real.pi - Real.pi / 4 from by
      ring, Real.sin_pi_sub, Real.sin_pi_div_four]
  have h2 : Real.sqrt 2 * Real.sqrt 2 = 2 := Real.mul_self_sqrt (by norm_num)
  have hval : 5 * Real.sqrt 2 * -(Real.sqrt 2 / 2) = -5 := by nlinarith
  have hz : arcA1raw ((0:ℝ), 0) ((-5:ℝ), 0) 0 5 =
      atan2 (5 * Real.sqrt 2 * Real.sin (-(3 * Real.pi / 4)))
            (5 * Real.sqrt 2 * Real.cos (-(3 * Real.pi / 4))) := by
    unfold arcA1raw arcCenter atan2
    rw [hcos, hsin, hval]
    congr 1
    norm_num
  rw [hz]
  have hπ := Real.pi_pos
  rw [atan2_polar (by positivity) ⟨by linarith, by linarith⟩]

theorem arcq_total :
    arcTotal ((0:ℝ), 0) ((-5:ℝ), 0) 0 5 true = -(Real.pi / 4) := by
  unfold arcTotal arcA1
  rw [arc90_a0, arcq_a1raw]
  rw [normWinding_cw_fix (by have := Real.pi_pos; linarith)]
  ring

theorem arcq_arcN : arcN ((0:ℝ), 0) ((-5:ℝ), 0) 0 5 true = 8 := by
  unfold arcN
  rw [arcq_total]
  have h1 : |(-(Real.pi / 4))| = Real.pi / 4 := by
    rw [abs_neg, abs_of_nonneg (by positivity)]
  rw [h1]
  have h2 : Real.pi / 4 / (Real.pi / 30) = 15 / 2 := by
    field_simp
    ring
  rw [h2]
  have h3 : ⌊(15 / 2 : ℝ)⌋₊ = 7 := by
    rw [Nat.floor_eq_iff (by norm_num)]
    norm_num
  rw [h3]
  norm_num

theorem arcq_len : (arcPoints ((0:ℝ), 0) ((-5:ℝ), 0) 0 5 true).length = 9 := by
  simp only [arcPoints, List.length_map, List.length_range, arcq_arcN]

theorem arcq_r : arcR ((0:ℝ), 0) 0 5 = 5 := by
  unfold arcR arcCenter
  rw [show ((0:ℝ) - (0 + 0)) ^ 2 + ((0:ℝ) - (0 + 5)) ^ 2 = 5 ^ 2 from by ring]
  exact Real.sqrt_sq (by norm_num)

theorem arcq_points_eval (m : ℕ) (hm : m < 9) :
    (arcPoints ((0:ℝ), 0) ((-5:ℝ), 0) 0 5 true).getD m (0, 0) =
      (5 * Real.cos (-(Real.pi / 2) + -(Real.pi / 4) * (m / 8)),
       5 + 5 * Real.sin (-(Real.pi / 2) + -(Real.pi / 4) * (m / 8))) := by
  simp only [arcPoints]
  rw [List.getD_eq_getElem?_getD, List.getElem?_map,
    List.getElem?_range (by rw [arcq_arcN]; omega)]
  simp only [Option.map_some', Option.getD_some]
  rw [arc90_a0, arcq_total, arcq_arcN, arcq_r]
  norm_num [arcCenter]

theorem arcq_angle (m : ℕ) (hm : m < 9) :
    atan2
      (((arcPoints ((0:ℝ), 0) ((-5:ℝ), 0) 0 5 true).getD m (0, 0)).2 -
        (arcCenter ((0:ℝ), 0) 0 5).2)
      (((arcPoints ((0:ℝ), 0) ((-5:ℝ), 0) 0 5 true).getD m (0, 0)).1 -
        (arcCenter ((0:ℝ), 0) 0 5).1) =
      -(Real.pi / 2) + -(Real.pi / 4) * (m / 8) := by
  rw [arcq_points_eval m hm]
  have hc1 : (arcCenter ((0:ℝ), 0) 0 5).1 = 0 := by norm_num [arcCenter]
  have hc2 : (arcCenter ((0:ℝ), 0) 0 5).2 = 5 := by norm_num [arcCenter]
  rw [hc1, hc2]
  dsimp only
  rw [show (5:ℝ) + 5 * Real.sin (-(Real.pi / 2) + -(Real.pi / 4) * (m / 8)) -
      5 = 5 * Real.sin (-(Real.pi / 2) + -(Real.pi / 4) * (m / 8)) from by
    ring]
  rw [show (5:ℝ) * Real.cos (-(Real.pi / 2) + -(Real.pi / 4) * (m / 8)) - 0 =
      5 * Real.cos (-(Real.pi / 2) + -(Real.pi / 4) * (m / 8)) from by ring]
  have hπ := Real.pi_pos
  have hm8 : (m : ℝ) / 8 ≤ 1 := by
    rw [div_le_one (by norm_num)]
    exact_mod_cast Nat.le_of_lt_succ hm
  have hm0 : (0:ℝ) ≤ (m : ℝ) / 8 := by positivity
  exact atan2_polar (by norm_num) ⟨by nlinarith, by nlinarith⟩

/-- C8: tessellating the clockwise arc the claim specifies — start `(0,0)`,
end `(-5,0)`, `i = 0, j = 5`, so `r = 5` and centre `(0,5)` — yields at
least 8 points, and the angle of each point about the centre strictly
decreases at every consecutive pair, hence from the first point to the last.
(The claim labels this arc "90 degrees", but the end point `(-5,0)` sits at
angle `-3*pi/4` about the centre, so the normalised clockwise sweep is
`-pi/4`; the claimed point count and monotonicity hold regardless.) -/
theorem c8_arc_angle_monotone :
    8 ≤ (arcPoints ((0:ℝ), 0) ((-5:ℝ), 0) 0 5 true).length ∧
    ∀ k : ℕ, k + 1 < (arcPoints ((0:ℝ), 0) ((-5:ℝ), 0) 0 5 true).length →
      atan2
        (((arcPoints ((0:ℝ), 0) ((-5:ℝ), 0) 0 5 true).getD (k + 1)
            (0, 0)).2 - (arcCenter ((0:ℝ), 0) 0 5).2)
        (((arcPoints ((0:ℝ), 0) ((-5:ℝ), 0) 0 5 true).getD (k + 1)
            (0, 0)).1 - (arcCenter ((0:ℝ), 0) 0 5).1) <
      atan2
        (((arcPoints ((0:ℝ), 0) ((-5:ℝ), 0) 0 5 true).getD k (0, 0)).2 -
          (arcCenter ((0:ℝ), 0) 0 5).2)
        (((arcPoints ((0:ℝ), 0) ((-5:ℝ), 0) 0 5 true).getD k (0, 0)).1 -
          (arcCenter ((0:ℝ), 0) 0 5).1) := by
  refine ⟨by rw [arcq_len]; norm_num, ?_⟩
  intro k hk
  rw [arcq_len] at hk
  rw [arcq_angle k (by omega), arcq_angle (k + 1) (by omega)]
  have hπ := Real.pi_pos
  push_cast
  nlinarith

/-- C8 witness: the strict angle decrease at the first consecutive pair. -/
theorem c8_arc_angle_monotone_witness :
    atan2
      (((arcPoints ((0:ℝ), 0) ((-5:ℝ), 0) 0 5 true).getD 1 (0, 0)).2 -
        (arcCenter ((0:ℝ), 0) 0 5).2)
      (((arcPoints ((0:ℝ), 0) ((-5:ℝ), 0) 0 5 true).getD 1 (0, 0)).1 -
        (arcCenter ((0:ℝ), 0) 0 5).1) <
    atan2
      (((arcPoints ((0:ℝ), 0) ((-5:ℝ), 0) 0 5 true).getD 0 (0, 0)).2 -
        (arcCenter ((0:ℝ), 0) 0 5).2)
      (((arcPoints ((0:ℝ), 0) ((-5:ℝ), 0) 0 5 true).getD 0 (0, 0)).1 -
        (arcCenter ((0:ℝ), 0) 0 5).1) :=
  c8_arc_angle_monotone.2 0 (by rw [arcq_len]; norm_num)

end Mts
